import Mathlib

/-!
Verification of the `date-string-fns` library (src/src/index.ts).

The library manipulates ISO8601 date strings (`YYYY-MM-DD`).  This file gives a
shallow embedding of the TypeScript source into Lean and proves properties of
the embedded functions.

Modelling conventions:
* JavaScript numbers that hold parsed date fields are embedded as `Int`
  (all arithmetic the library performs on them is exact integer arithmetic
  in the ranges any claim touches).
* Delta fields (`days` / `months` / `years`) are `Option ℚ`: an absent field is
  `none`; a present JS number is a rational (every finite double is rational;
  non-finite doubles are rejected by `Number.isSafeInteger` exactly like
  non-integer rationals, so nothing relevant is lost).
* `throw new Error(...)` becomes `Except.error` with an explicit error datatype
  `JsError` mirroring the four distinct error messages of the source.
* JS `%` is truncating remainder, embedded as `Int.tmod`; `Math.trunc(a / 12)`
  on a safe integer `a` is truncating division, embedded as `Int.tdiv`.
* The platform `Date` object is embedded as a record of its accessor results.
-/

/-- Error conditions raised by the source (one constructor per distinct
`throw new Error(...)` message). -/
inductive JsError where
  | invalidMonth (m : Int)
  | invalidYear (y : Int)
  | invalidDate (s : String)
  | nonIntegerDelta (field : String)
  deriving DecidableEq, Repr

deriving instance DecidableEq for Except

/-- Result record of `_toDMY` (source returns `{ year, month, day }`). -/
structure DMY where
  year : Int
  month : Int
  day : Int
  deriving DecidableEq, Repr

/-- A JavaScript value as seen by `isValidIsoDateString` after its
`typeof value !== 'string'` test: either a string or some non-string value. -/
inductive JsValue where
  | str (s : String)
  | nonString
  deriving DecidableEq

/-- The `increment` argument of `addDate`:
`{ days?: number; months?: number; years?: number }`. -/
structure DateDelta where
  days : Option ℚ
  months : Option ℚ
  years : Option ℚ

/-- The platform `Date` object, embedded as the record of accessor results
used by the library's boundary adapters. -/
structure JSDate where
  getDay : Int
  getDate : Int
  getMonth : Int
  getFullYear : Int
  getUTCDay : Int
  getUTCDate : Int
  getUTCMonth : Int
  getUTCFullYear : Int

/-- `Number.isSafeInteger`: an exact integer of magnitude at most `2^53 - 1`. -/
def isSafeInteger (q : ℚ) : Bool :=
  q.den == 1 && decide (q.num.natAbs ≤ 9007199254740991)

/-- The ASCII digit character for `n < 10`. -/
def digitChar (n : Nat) : Char := Char.ofNat (48 + n)

/-- Decimal digit characters of a natural number, most significant first
(fuel-based so that it is structurally recursive; `natDigitChars` supplies
sufficient fuel).  Mirrors JS `n.toString()` for non-negative integers. -/
def natDigitCharsAux : Nat → Nat → List Char
  | 0, _ => []
  | fuel + 1, n =>
    if n < 10 then [digitChar n]
    else natDigitCharsAux fuel (n / 10) ++ [digitChar (n % 10)]

/-- Decimal digit characters of a natural number (JS `n.toString()`). -/
def natDigitChars (n : Nat) : List Char := natDigitCharsAux (n + 1) n

/-- JS `n.toString()` for an integer: a minus sign followed by the digits of
the magnitude when negative. -/
def intToChars (n : Int) : List Char :=
  if n < 0 then '-' :: natDigitChars n.natAbs else natDigitChars n.toNat

/-- JS `String.prototype.padStart(w, '0')`: left-pad with zeros up to width
`w` (no-op when already at least that long). -/
def padChars (s : List Char) (w : Nat) : List Char :=
  List.replicate (w - s.length) '0' ++ s

/-- Source `buildIsoDateString`: template literal
`pad(year,4) - pad(month,2) - pad(day,2)` where `pad(n,w)` is
`n.toString().padStart(w,'0')`. -/
def buildIsoDateString (day1To31 month1to12 year : Int) : String :=
  ⟨padChars (intToChars year) 4 ++
    ('-' :: padChars (intToChars month1to12) 2) ++
    ('-' :: padChars (intToChars day1To31) 2)⟩

/-- The regex character class `\d` (ASCII digit). -/
def isDigitChar (c : Char) : Bool := decide (48 ≤ c.toNat ∧ c.toNat ≤ 57)

/-- Decimal value of a digit-character list starting from accumulator `a`
(helper for stating fold lemmas about `digitsVal`). -/
def digitsValFrom (a : Int) (cs : List Char) : Int :=
  cs.foldl (fun acc c => acc * 10 + ((c.toNat : Int) - 48)) a

/-- JS `Number(s)` on a string of decimal digits. -/
def digitsVal (cs : List Char) : Int := digitsValFrom 0 cs

/-- The regex `^(\d\d\d\d)-(\d\d)-(\d\d)$` together with `Number` conversion of
the three capture groups, as used by both `_toDMY` and
`isValidIsoDateString`.  Returns `(year, month, day)` on a match. -/
def isoMatch (s : String) : Option (Int × Int × Int) :=
  match s.data with
  | [y3, y2, y1, y0, h1, m1, m0, h2, d1, d0] =>
    if (isDigitChar y3 && isDigitChar y2 && isDigitChar y1 && isDigitChar y0 &&
        h1 == '-' && isDigitChar m1 && isDigitChar m0 && h2 == '-' &&
        isDigitChar d1 && isDigitChar d0) then
      some (digitsVal [y3, y2, y1, y0], digitsVal [m1, m0], digitsVal [d1, d0])
    else none
  | _ => none

/-- Source `_toDMY`: match the date string against the fixed pattern and
convert the groups with `Number`; throw `Invalid date` when the pattern does
not match. -/
def _toDMY (date : String) : Except JsError DMY :=
  match isoMatch date with
  | some (y, m, d) => .ok ⟨y, m, d⟩
  | none => .error (.invalidDate date)

/-- Source `isLeapYear`: `year % 4 === 0 && (year % 100 !== 0 || year % 400 === 0)`
with JS `%` (truncating remainder). -/
def isLeapYear (year : Int) : Bool :=
  year.tmod 4 == 0 && (year.tmod 100 != 0 || year.tmod 400 == 0)

/-- The source's `maxDateInMonth1to12` array (index 0 unused). -/
def monthTable (leap : Bool) : List Int :=
  [0, 31, if leap then 29 else 28, 31, 30, 31, 30, 31, 31, 30, 31, 30, 31]

/-- Source `getMaxDayInMonth`: throws `Invalid month number` outside 1–12 and
`Invalid year` outside 1–9999, otherwise looks up the per-month table. -/
def getMaxDayInMonth (month1to12 year : Int) : Except JsError Int :=
  if month1to12 < 1 ∨ month1to12 > 12 then .error (.invalidMonth month1to12)
  else if year < 1 ∨ year > 9999 then .error (.invalidYear year)
  else .ok ((monthTable (isLeapYear year)).getD month1to12.toNat 0)

/-- Total table lookup (the value `getMaxDayInMonth` returns when it does not
throw); used to state theorems. -/
def maxDayU (month year : Int) : Int :=
  (monthTable (isLeapYear year)).getD month.toNat 0

/-- Source `isValidDate` (the optional `yearRange` argument is always left at
its default `{minYear: 1, maxYear: 9999}` by the library and by every claim,
so it is inlined here). -/
def isValidDate (day month year : Int) : Except JsError Bool :=
  if year < 1 ∨ year > 9999 then .ok false
  else if month < 1 ∨ month > 12 then .ok false
  else if day < 1 ∨ day > 31 then .ok false
  else
    match getMaxDayInMonth month year with
    | .error e => .error e
    | .ok mx => .ok (decide (day ≤ mx))

/-- Source `isValidIsoDateString`: `false` for non-strings, `false` when the
pattern fails, otherwise `isValidDate` on the parsed fields. -/
def isValidIsoDateString (value : JsValue) : Except JsError Bool :=
  match value with
  | .nonString => .ok false
  | .str s =>
    match isoMatch s with
    | none => .ok false
    | some (y, m, d) => isValidDate d m y

/-- Source `checkMonthRollover` closure in `addDate`: a single conditional
adjustment moving one whole year when the month has left 1–12. -/
def checkMonthRollover (year month : Int) : Int × Int :=
  if month < 1 then (year - 1, month + 12)
  else if month > 12 then (year + 1, month - 12)
  else (year, month)

/-- The `increment.years` block of `addDate`. -/
def yearsStep (years : Option ℚ) (year : Int) : Except JsError Int :=
  match years with
  | none => .ok year
  | some q =>
    if isSafeInteger q then .ok (year + q.num)
    else .error (.nonIntegerDelta "years")

/-- The year/month computation of the `increment.months` block of `addDate`:
`yearsFromMonths = Math.trunc(months / 12)` (truncating division on a safe
integer), shift the year by it, shift the month by the remainder, then apply
the single conditional rollover. -/
def codeMonthYM (year month mo : Int) : Int × Int :=
  checkMonthRollover (year + mo.tdiv 12) (month + (mo - mo.tdiv 12 * 12))

/-- The `increment.months` block of `addDate`: the year/month computation of
`codeMonthYM` followed by the day fix-up controlled by the
`isLastDayInMonth` flag. -/
def monthsStep (months : Option ℚ) (isLastDayInMonth : Bool) (year month day : Int) :
    Except JsError (Int × Int × Int) :=
  match months with
  | none => .ok (year, month, day)
  | some q =>
    if isSafeInteger q then
      match getMaxDayInMonth (codeMonthYM year month q.num).2 (codeMonthYM year month q.num).1 with
      | .error e => .error e
      | .ok mx =>
        .ok ((codeMonthYM year month q.num).1, (codeMonthYM year month q.num).2,
          if isLastDayInMonth then mx else min day mx)
    else .error (.nonIntegerDelta "months")

/-- The table lookup of `getMaxDayInMonth` only ever produces a value between
28 and 31 (needed to know the day-walk loops of `addDate` terminate). -/
theorem getMaxDayInMonth_ok_bounds {m y v : Int} (h : getMaxDayInMonth m y = .ok v) :
    28 ≤ v ∧ v ≤ 31 := by
  unfold getMaxDayInMonth at h
  split at h
  · exact absurd h (by simp)
  split at h
  · exact absurd h (by simp)
  rename_i h1 h2
  simp only [Except.ok.injEq] at h
  subst h
  have hm1 : 1 ≤ m := by omega
  have hm2 : m ≤ 12 := by omega
  interval_cases m <;> cases hL : isLeapYear y <;> simp [monthTable, hL]

/-- The `while (day < 1)` loop of `addDate`'s day block: step to the previous
month (with rollover) and add that month's length. -/
def borrowDays (year month day : Int) : Except JsError (Int × Int × Int) :=
  if day < 1 then
    match h : getMaxDayInMonth (checkMonthRollover year (month - 1)).2
        (checkMonthRollover year (month - 1)).1 with
    | .error e => .error e
    | .ok mx => borrowDays (checkMonthRollover year (month - 1)).1
        (checkMonthRollover year (month - 1)).2 (day + mx)
  else .ok (year, month, day)
  termination_by (1 - day).toNat
  decreasing_by
    have h28 : 28 ≤ mx ∧ mx ≤ 31 := getMaxDayInMonth_ok_bounds h
    omega

/-- The `for (;;)` loop of `addDate`'s day block: look up the current month's
length, stop when the day fits, otherwise subtract the length and step to the
next month (with rollover). -/
def carryDays (year month day : Int) : Except JsError (Int × Int × Int) :=
  match h : getMaxDayInMonth month year with
  | .error e => .error e
  | .ok maxDay =>
    if day ≤ maxDay then .ok (year, month, day)
    else
      carryDays (checkMonthRollover year (month + 1)).1
        (checkMonthRollover year (month + 1)).2 (day - maxDay)
  termination_by day.toNat
  decreasing_by
    have h28 : 28 ≤ maxDay ∧ maxDay ≤ 31 := getMaxDayInMonth_ok_bounds h
    omega

/-- The `increment.days` block of `addDate`: add the delta to the day then
renormalize with the borrow loop followed by the carry loop. -/
def daysStep (days : Option ℚ) (year month day : Int) :
    Except JsError (Int × Int × Int) :=
  match days with
  | none => .ok (year, month, day)
  | some q =>
    if isSafeInteger q then
      match borrowDays year month (day + q.num) with
      | .error e => .error e
      | .ok p => carryDays p.1 p.2.1 p.2.2
    else .error (.nonIntegerDelta "days")

/-- Source `addDate`: parse, record the last-day-of-month flag
(`isLastDayInMonth`, the comparison `dmy.day == maxStart` below, taken before
any increment is applied), then apply the years, months and days blocks in
order and re-encode. -/
def addDate (date : String) (increment : DateDelta) : Except JsError String :=
  match _toDMY date with
  | .error e => .error e
  | .ok dmy =>
    match getMaxDayInMonth dmy.month dmy.year with
    | .error e => .error e
    | .ok maxStart =>
      match yearsStep increment.years dmy.year with
      | .error e => .error e
      | .ok y1 =>
        match monthsStep increment.months (dmy.day == maxStart) y1 dmy.month dmy.day with
        | .error e => .error e
        | .ok p2 =>
          match daysStep increment.days p2.1 p2.2.1 p2.2.2 with
          | .error e => .error e
          | .ok p3 => .ok (buildIsoDateString p3.2.2 p3.2.1 p3.1)

/-- Source `fromLocalDate`: note it reads `d.getDay()` (the weekday) where the
day-of-month (`d.getDate()`) would be expected. -/
def fromLocalDate (d : JSDate) : String :=
  buildIsoDateString d.getDay (d.getMonth + 1) d.getFullYear

/-- Source `fromUTCDate`: likewise reads `d.getUTCDay()` (the UTC weekday). -/
def fromUTCDate (d : JSDate) : String :=
  buildIsoDateString d.getUTCDay (d.getUTCMonth + 1) d.getUTCFullYear

/-- Modelled from the spec (§4.4 month step): the while-loop month
normalization "while month < 1, month += 12; year -= 1; while month > 12,
month -= 12; year += 1". -/
def normalizeMonth (year month : Int) : Int × Int :=
  if month < 1 then normalizeMonth (year - 1) (month + 12)
  else if month > 12 then normalizeMonth (year + 1) (month - 12)
  else (year, month)
  termination_by ((1 - month).toNat + (month - 12).toNat)
  decreasing_by
  · omega
  · omega

/-- Modelled from the spec (§4.4 month step): decompose the month delta with
`floor(months/12)` (truncation toward negative infinity), shift year and
month, then normalize the month with the while loops. -/
def specMonthYM (year month mo : Int) : Int × Int :=
  normalizeMonth (year + mo.fdiv 12) (month + (mo - mo.fdiv 12 * 12))

/-- Days from 0001-01-01 to the start of year `y` in the proleptic Gregorian
calendar (a reasoning device, not part of the source). -/
def daysBeforeYear (y : Int) : Int :=
  365 * (y - 1) + (y - 1) / 4 - (y - 1) / 100 + (y - 1) / 400

/-- Days from the start of the year to the start of month `m` (cumulative
month-length table; reasoning device). -/
def daysBeforeMonth (m : Int) (leap : Bool) : Int :=
  if m = 1 then 0
  else if m = 2 then 31
  else if m = 3 then 59 + (if leap then 1 else 0)
  else if m = 4 then 90 + (if leap then 1 else 0)
  else if m = 5 then 120 + (if leap then 1 else 0)
  else if m = 6 then 151 + (if leap then 1 else 0)
  else if m = 7 then 181 + (if leap then 1 else 0)
  else if m = 8 then 212 + (if leap then 1 else 0)
  else if m = 9 then 243 + (if leap then 1 else 0)
  else if m = 10 then 273 + (if leap then 1 else 0)
  else if m = 11 then 304 + (if leap then 1 else 0)
  else if m = 12 then 334 + (if leap then 1 else 0)
  else 0

/-- Rata-die ordinal of a date: the number of the day `(y, m, d)` counting
0001-01-01 as day 1 (reasoning device for the day-walk loops). -/
def rd (y m d : Int) : Int :=
  daysBeforeYear y + daysBeforeMonth m (isLeapYear y) + d

/-- The weekday the JS `Date.prototype.getDay` accessor reports for a calendar
date (0 = Sunday … 6 = Saturday); `rd` of 1970-01-01 is ≡ 4 (Thursday)
modulo 7. -/
def jsWeekday (y m d : Int) : Int := rd y m d % 7

/-- A concrete consistent `Date` value: 2023-02-14 (a Tuesday, so both weekday
accessors report 2 while both day-of-month accessors report 14). -/
def sampleDate : JSDate :=
  ⟨2, 14, 1, 2023, 2, 14, 1, 2023⟩

/-! ### Characterization of the month-length lookup -/

/-- `getMaxDayInMonth` succeeds exactly on in-range month and year, returning
the total table lookup `maxDayU`. -/
theorem getMaxDayInMonth_ok_iff {m y v : Int} :
    getMaxDayInMonth m y = .ok v ↔
      (1 ≤ m ∧ m ≤ 12 ∧ 1 ≤ y ∧ y ≤ 9999 ∧ v = maxDayU m y) := by
  unfold getMaxDayInMonth
  split
  · rename_i hc
    constructor
    · intro h; exact absurd h (by simp)
    · rintro ⟨h1, h2, h3, h4, h5⟩; omega
  split
  · rename_i hc hc2
    constructor
    · intro h; exact absurd h (by simp)
    · rintro ⟨h1, h2, h3, h4, h5⟩; omega
  rename_i hc hc2
  simp only [Except.ok.injEq, maxDayU]
  constructor
  · intro h; exact ⟨by omega, by omega, by omega, by omega, h.symm⟩
  · rintro ⟨h1, h2, h3, h4, h5⟩; exact h5.symm

/-- When the month is in range, the only error `getMaxDayInMonth` can raise is
the invalid-year one. -/
theorem getMaxDayInMonth_err_char {m y : Int} {e : JsError}
    (h : getMaxDayInMonth m y = .error e) (h1 : 1 ≤ m) (h2 : m ≤ 12) :
    e = .invalidYear y ∧ (y < 1 ∨ y > 9999) := by
  unfold getMaxDayInMonth at h
  split at h
  · omega
  split at h
  · rename_i hc hc2
    injection h with h3
    exact ⟨h3.symm, hc2⟩
  · exact absurd h (by simp)

/-- The month-length table only holds values between 28 and 31 on in-range
months. -/
theorem maxDayU_bounds (m y : Int) (h1 : 1 ≤ m) (h2 : m ≤ 12) :
    28 ≤ maxDayU m y ∧ maxDayU m y ≤ 31 := by
  interval_cases m <;> cases hL : isLeapYear y <;> simp [maxDayU, monthTable, hL]

/-! ### The rollover helper -/

/-- One conditional rollover brings any month in `[-10, 24]` into `[1, 12]`. -/
theorem checkMonthRollover_range (y mm : Int) (h1 : -10 ≤ mm) (h2 : mm ≤ 24) :
    1 ≤ (checkMonthRollover y mm).2 ∧ (checkMonthRollover y mm).2 ≤ 12 := by
  unfold checkMonthRollover
  split
  · simp; omega
  split
  · simp; omega
  · simp; omega

/-! ### Step lemmas for the two day-walk loops

The loops are defined by well-founded recursion, so concrete runs are
evaluated through these one-step rewriting lemmas. -/

theorem carryDays_done {year month day mx : Int}
    (h : getMaxDayInMonth month year = .ok mx) (h2 : day ≤ mx) :
    carryDays year month day = .ok (year, month, day) := by
  rw [carryDays]
  split
  · rename_i e heq; rw [h] at heq; cases heq
  · rename_i maxDay heq; rw [h] at heq
    injection heq with heq2; subst heq2
    rw [if_pos h2]

theorem carryDays_go {year month day mx : Int}
    (h : getMaxDayInMonth month year = .ok mx) (h2 : mx < day) :
    carryDays year month day =
      carryDays (checkMonthRollover year (month + 1)).1
        (checkMonthRollover year (month + 1)).2 (day - mx) := by
  rw [carryDays]
  split
  · rename_i e heq; rw [h] at heq; cases heq
  · rename_i maxDay heq; rw [h] at heq
    injection heq with heq2; subst heq2
    rw [if_neg (by omega)]

theorem carryDays_err {year month day : Int} {e : JsError}
    (h : getMaxDayInMonth month year = .error e) :
    carryDays year month day = .error e := by
  rw [carryDays]
  split
  · rename_i e2 heq; rw [h] at heq; injection heq with heq2; rw [heq2]
  · rename_i maxDay heq; rw [h] at heq; cases heq

theorem borrowDays_done {year month day : Int} (h2 : 1 ≤ day) :
    borrowDays year month day = .ok (year, month, day) := by
  rw [borrowDays]
  rw [if_neg (by omega)]

theorem borrowDays_go {year month day mx : Int} (hd : day < 1)
    (h : getMaxDayInMonth (checkMonthRollover year (month - 1)).2
      (checkMonthRollover year (month - 1)).1 = .ok mx) :
    borrowDays year month day =
      borrowDays (checkMonthRollover year (month - 1)).1
        (checkMonthRollover year (month - 1)).2 (day + mx) := by
  rw [borrowDays]
  rw [if_pos hd]
  split
  · rename_i e heq; rw [h] at heq; cases heq
  · rename_i mx2 heq; rw [h] at heq
    injection heq with heq2; subst heq2
    rfl

theorem borrowDays_err {year month day : Int} {e : JsError} (hd : day < 1)
    (h : getMaxDayInMonth (checkMonthRollover year (month - 1)).2
      (checkMonthRollover year (month - 1)).1 = .error e) :
    borrowDays year month day = .error e := by
  rw [borrowDays]
  rw [if_pos hd]
  split
  · rename_i e2 heq; rw [h] at heq; injection heq with heq2; rw [heq2]
  · rename_i mx2 heq; rw [h] at heq; cases heq

/-! ### Codec lemmas -/

theorem isDigitChar_iff {c : Char} : isDigitChar c = true ↔ (48 ≤ c.toNat ∧ c.toNat ≤ 57) := by
  simp [isDigitChar]

theorem char_toNat_inj {c d : Char} (h : c.toNat = d.toNat) : c = d := by
  have := Char.ofNat_toNat c
  rw [h, Char.ofNat_toNat] at this
  exact this.symm

theorem digitChar_toNat {n : Nat} (h : n < 10) : (digitChar n).toNat = 48 + n := by
  interval_cases n <;> decide

theorem digitChar_isDigit {n : Nat} (h : n < 10) : isDigitChar (digitChar n) = true := by
  interval_cases n <;> decide

theorem digitsValFrom_cons (a : Int) (c : Char) (cs : List Char) :
    digitsValFrom a (c :: cs) = digitsValFrom (a * 10 + ((c.toNat : Int) - 48)) cs := rfl

theorem digitsValFrom_append (a : Int) (xs ys : List Char) :
    digitsValFrom a (xs ++ ys) = digitsValFrom (digitsValFrom a xs) ys := by
  simp [digitsValFrom, List.foldl_append]

theorem natDigitCharsAux_digits :
    ∀ fuel n, n < fuel → ∀ c ∈ natDigitCharsAux fuel n, isDigitChar c = true := by
  intro fuel
  induction fuel with
  | zero => omega
  | succ f ih =>
    intro n hn c hc
    unfold natDigitCharsAux at hc
    split at hc
    · rename_i h10
      simp only [List.mem_singleton] at hc
      subst hc
      exact digitChar_isDigit h10
    · rename_i h10
      rw [List.mem_append] at hc
      rcases hc with hc | hc
      · exact ih (n / 10) (by omega) c hc
      · simp only [List.mem_singleton] at hc
        subst hc
        exact digitChar_isDigit (by omega)

theorem natDigitCharsAux_val :
    ∀ fuel n, n < fuel → digitsVal (natDigitCharsAux fuel n) = (n : Int) := by
  intro fuel
  induction fuel with
  | zero => omega
  | succ f ih =>
    intro n hn
    unfold natDigitCharsAux
    split
    · rename_i h10
      simp [digitsVal, digitsValFrom, digitChar_toNat h10]
    · rename_i h10
      rw [digitsVal, digitsValFrom_append]
      have hv := ih (n / 10) (by omega)
      rw [digitsVal] at hv
      rw [hv, digitsValFrom_cons]
      simp only [digitsValFrom, List.foldl_nil]
      rw [digitChar_toNat (by omega : n % 10 < 10)]
      push_cast
      omega

theorem natDigitCharsAux_len_le :
    ∀ fuel n w, n < fuel → n < 10 ^ w → 1 ≤ w → (natDigitCharsAux fuel n).length ≤ w := by
  intro fuel
  induction fuel with
  | zero => omega
  | succ f ih =>
    intro n w hn hw h1
    unfold natDigitCharsAux
    split
    · rename_i h10
      simpa using h1
    · rename_i h10
      rcases w with _ | w'
      · omega
      rcases w' with _ | w''
      · simp at hw; omega
      have hrec : n / 10 < 10 ^ (w'' + 1) := by
        rw [Nat.div_lt_iff_lt_mul (by norm_num)]
        calc n < 10 ^ (w'' + 1 + 1) := hw
        _ = 10 ^ (w'' + 1) * 10 := by ring
      have := ih (n / 10) (w'' + 1) (by omega) hrec (by omega)
      simp only [List.length_append, List.length_singleton]
      omega

theorem natDigitChars_digits (n : Nat) : ∀ c ∈ natDigitChars n, isDigitChar c = true :=
  natDigitCharsAux_digits (n + 1) n (by omega)

theorem natDigitChars_val (n : Nat) : digitsVal (natDigitChars n) = (n : Int) :=
  natDigitCharsAux_val (n + 1) n (by omega)

theorem natDigitChars_len_le {n w : Nat} (hw : n < 10 ^ w) (h1 : 1 ≤ w) :
    (natDigitChars n).length ≤ w :=
  natDigitCharsAux_len_le (n + 1) n w (by omega) hw h1

theorem padChars_length {cs : List Char} {w : Nat} (h : cs.length ≤ w) :
    (padChars cs w).length = w := by
  simp [padChars]
  omega

theorem padChars_digits {cs : List Char} {w : Nat}
    (h : ∀ c ∈ cs, isDigitChar c = true) :
    ∀ c ∈ padChars cs w, isDigitChar c = true := by
  intro c hc
  rw [padChars, List.mem_append] at hc
  rcases hc with hc | hc
  · rw [List.eq_of_mem_replicate hc]
    decide
  · exact h c hc

theorem digitsVal_replicate_zero (k : Nat) (cs : List Char) :
    digitsVal (List.replicate k '0' ++ cs) = digitsVal cs := by
  induction k with
  | zero => simp
  | succ j ih =>
    rw [List.replicate_succ, List.cons_append]
    rw [digitsVal, digitsValFrom_cons]
    norm_num
    exact ih

theorem digitsVal_padChars (cs : List Char) (w : Nat) :
    digitsVal (padChars cs w) = digitsVal cs :=
  digitsVal_replicate_zero _ cs

theorem digitsValFrom_bounds :
    ∀ (cs : List Char) (a : Int), (∀ c ∈ cs, isDigitChar c = true) → 0 ≤ a →
      a * 10 ^ cs.length ≤ digitsValFrom a cs ∧
        digitsValFrom a cs < (a + 1) * 10 ^ cs.length := by
  intro cs
  induction cs with
  | nil => intro a _ _; simp [digitsValFrom]
  | cons c cs' ih =>
    intro a hdig ha
    have hc : 48 ≤ c.toNat ∧ c.toNat ≤ 57 :=
      isDigitChar_iff.mp (hdig c (List.mem_cons_self c cs'))
    have hdc0 : (0 : Int) ≤ (c.toNat : Int) - 48 := by omega
    have hdc9 : ((c.toNat : Int) - 48) ≤ 9 := by omega
    rw [digitsValFrom_cons]
    have ih2 := ih (a * 10 + ((c.toNat : Int) - 48)) (fun x hx => hdig x (List.mem_cons_of_mem c hx)) (by omega)
    have hp : (0 : Int) < 10 ^ cs'.length := pow_pos (by norm_num) _
    constructor
    · calc a * 10 ^ (c :: cs').length = (a * 10) * 10 ^ cs'.length := by
            simp [List.length_cons]; ring
      _ ≤ (a * 10 + ((c.toNat : Int) - 48)) * 10 ^ cs'.length := by
            apply mul_le_mul_of_nonneg_right (by omega) (le_of_lt hp)
      _ ≤ digitsValFrom (a * 10 + ((c.toNat : Int) - 48)) cs' := ih2.1
    · calc digitsValFrom (a * 10 + ((c.toNat : Int) - 48)) cs'
          < (a * 10 + ((c.toNat : Int) - 48) + 1) * 10 ^ cs'.length := ih2.2
      _ ≤ ((a + 1) * 10) * 10 ^ cs'.length := by
            apply mul_le_mul_of_nonneg_right (by omega) (le_of_lt hp)
      _ = (a + 1) * 10 ^ (c :: cs').length := by
            simp [List.length_cons]; ring

theorem digitsVal_bounds {cs : List Char} (h : ∀ c ∈ cs, isDigitChar c = true) :
    0 ≤ digitsVal cs ∧ digitsVal cs < 10 ^ cs.length := by
  have := digitsValFrom_bounds cs 0 h (le_refl 0)
  simpa [digitsVal] using this

theorem digitsValFrom_inj :
    ∀ (cs ds : List Char) (a : Int), (∀ c ∈ cs, isDigitChar c = true) →
      (∀ c ∈ ds, isDigitChar c = true) → cs.length = ds.length → 0 ≤ a →
      digitsValFrom a cs = digitsValFrom a ds → cs = ds := by
  intro cs
  induction cs with
  | nil =>
    intro ds a _ _ hlen _ _
    symm
    exact List.eq_nil_of_length_eq_zero hlen.symm
  | cons c cs' ih =>
    intro ds a hc hd hlen ha hval
    rcases ds with _ | ⟨d, ds'⟩
    · simp at hlen
    have hlen' : cs'.length = ds'.length := by simpa using hlen
    have hcdig : 48 ≤ c.toNat ∧ c.toNat ≤ 57 :=
      isDigitChar_iff.mp (hc c (List.mem_cons_self c cs'))
    have hddig : 48 ≤ d.toNat ∧ d.toNat ≤ 57 :=
      isDigitChar_iff.mp (hd d (List.mem_cons_self d ds'))
    rw [digitsValFrom_cons, digitsValFrom_cons] at hval
    have hcs' : ∀ x ∈ cs', isDigitChar x = true := fun x hx => hc x (List.mem_cons_of_mem c hx)
    have hds' : ∀ x ∈ ds', isDigitChar x = true := fun x hx => hd x (List.mem_cons_of_mem d hx)
    have hb1 := digitsValFrom_bounds cs' (a * 10 + ((c.toNat : Int) - 48)) hcs' (by omega)
    have hb2 := digitsValFrom_bounds ds' (a * 10 + ((d.toNat : Int) - 48)) hds' (by omega)
    rw [hlen'] at hb1
    have hp : (0 : Int) < 10 ^ ds'.length := pow_pos (by norm_num) _
    have heq : (c.toNat : Int) - 48 = (d.toNat : Int) - 48 := by
      by_contra hne
      rcases lt_or_gt_of_ne hne with hlt | hgt
      · have h1 : (a * 10 + ((c.toNat : Int) - 48) + 1) ≤ (a * 10 + ((d.toNat : Int) - 48)) := by omega
        have := mul_le_mul_of_nonneg_right h1 (le_of_lt hp)
        omega
      · have h1 : (a * 10 + ((d.toNat : Int) - 48) + 1) ≤ (a * 10 + ((c.toNat : Int) - 48)) := by omega
        have := mul_le_mul_of_nonneg_right h1 (le_of_lt hp)
        omega
    have hcd : c = d := char_toNat_inj (by omega)
    rw [heq] at hval
    have htail := ih ds' (a * 10 + ((d.toNat : Int) - 48)) hcs' hds' hlen' (by omega) hval
    rw [hcd, htail]

theorem length_eq_four {α : Type} {l : List α} :
    l.length = 4 ↔ ∃ a b c d, l = [a, b, c, d] := by
  constructor
  · intro h
    rcases l with _ | ⟨a, t⟩
    · simp at h
    have ht : t.length = 3 := by simpa using h
    obtain ⟨b, c, d, rfl⟩ := List.length_eq_three.mp ht
    exact ⟨a, b, c, d, rfl⟩
  · rintro ⟨a, b, c, d, rfl⟩; rfl

theorem isoMatch_eq_some {s : String} {y3 y2 y1 y0 mo1 mo0 d1 d0 : Char}
    (hdata : s.data = [y3, y2, y1, y0, '-', mo1, mo0, '-', d1, d0])
    (h3 : isDigitChar y3 = true) (h2 : isDigitChar y2 = true)
    (h1 : isDigitChar y1 = true) (h0 : isDigitChar y0 = true)
    (hm1 : isDigitChar mo1 = true) (hm0 : isDigitChar mo0 = true)
    (hd1 : isDigitChar d1 = true) (hd0 : isDigitChar d0 = true) :
    isoMatch s =
      some (digitsVal [y3, y2, y1, y0], digitsVal [mo1, mo0], digitsVal [d1, d0]) := by
  rw [isoMatch, hdata]
  dsimp only
  rw [if_pos (by simp [h3, h2, h1, h0, hm1, hm0, hd1, hd0])]

theorem toDMY_buildIso {d m y : Int} (hd0 : 0 ≤ d) (hd : d ≤ 99) (hm0 : 0 ≤ m)
    (hm : m ≤ 99) (hy0 : 0 ≤ y) (hy : y ≤ 9999) :
    _toDMY (buildIsoDateString d m y) = .ok ⟨y, m, d⟩ := by
  have hyc : intToChars y = natDigitChars y.toNat := by rw [intToChars, if_neg (by omega)]
  have hmc : intToChars m = natDigitChars m.toNat := by rw [intToChars, if_neg (by omega)]
  have hdc : intToChars d = natDigitChars d.toNat := by rw [intToChars, if_neg (by omega)]
  have hylen : (padChars (natDigitChars y.toNat) 4).length = 4 :=
    padChars_length (natDigitChars_len_le (by omega : y.toNat < 10 ^ 4) (by norm_num))
  have hmlen : (padChars (natDigitChars m.toNat) 2).length = 2 :=
    padChars_length (natDigitChars_len_le (by omega : m.toNat < 10 ^ 2) (by norm_num))
  have hdlen : (padChars (natDigitChars d.toNat) 2).length = 2 :=
    padChars_length (natDigitChars_len_le (by omega : d.toNat < 10 ^ 2) (by norm_num))
  obtain ⟨a, b, c, e, hY⟩ := length_eq_four.mp hylen
  obtain ⟨f, g, hM⟩ := List.length_eq_two.mp hmlen
  obtain ⟨h1, i1, hD⟩ := List.length_eq_two.mp hdlen
  have hYdig : ∀ x ∈ [a, b, c, e], isDigitChar x = true := by
    rw [← hY]; exact padChars_digits (natDigitChars_digits _)
  have hMdig : ∀ x ∈ [f, g], isDigitChar x = true := by
    rw [← hM]; exact padChars_digits (natDigitChars_digits _)
  have hDdig : ∀ x ∈ [h1, i1], isDigitChar x = true := by
    rw [← hD]; exact padChars_digits (natDigitChars_digits _)
  have hYval : digitsVal [a, b, c, e] = y := by
    rw [← hY, digitsVal_padChars, natDigitChars_val, Int.toNat_of_nonneg hy0]
  have hMval : digitsVal [f, g] = m := by
    rw [← hM, digitsVal_padChars, natDigitChars_val, Int.toNat_of_nonneg hm0]
  have hDval : digitsVal [h1, i1] = d := by
    rw [← hD, digitsVal_padChars, natDigitChars_val, Int.toNat_of_nonneg hd0]
  rw [_toDMY, buildIsoDateString, hyc, hmc, hdc, hY, hM, hD]
  have ha := hYdig a (by simp)
  have hb := hYdig b (by simp)
  have hcc := hYdig c (by simp)
  have he := hYdig e (by simp)
  have hf := hMdig f (by simp)
  have hg := hMdig g (by simp)
  have hh := hDdig h1 (by simp)
  have hi := hDdig i1 (by simp)
  rw [isoMatch_eq_some (by simp) ha hb hcc he hf hg hh hi]
  rw [hYval, hMval, hDval]

theorem isoMatch_char {s : String} {y m d : Int} (h : isoMatch s = some (y, m, d)) :
    ∃ y3 y2 y1 y0 mo1 mo0 d1 d0,
      s.data = [y3, y2, y1, y0, '-', mo1, mo0, '-', d1, d0] ∧
      (∀ c ∈ [y3, y2, y1, y0], isDigitChar c = true) ∧
      (∀ c ∈ [mo1, mo0], isDigitChar c = true) ∧
      (∀ c ∈ [d1, d0], isDigitChar c = true) ∧
      digitsVal [y3, y2, y1, y0] = y ∧ digitsVal [mo1, mo0] = m ∧
      digitsVal [d1, d0] = d := by
  rw [isoMatch] at h
  split at h
  · rename_i y3 y2 y1 y0 h1 mo1 mo0 h2 d1 d0 hdata
    split at h
    · rename_i hcond
      simp only [Bool.and_eq_true, beq_iff_eq] at hcond
      obtain ⟨⟨⟨⟨⟨⟨⟨⟨⟨c1, c2⟩, c3⟩, c4⟩, c5⟩, c6⟩, c7⟩, c8⟩, c9⟩, c10⟩ := hcond
      injection h with h'
      subst c5; subst c8
      refine ⟨y3, y2, y1, y0, mo1, mo0, d1, d0, hdata, ?_, ?_, ?_, ?_, ?_, ?_⟩
      · intro c hc; simp at hc; rcases hc with rfl | rfl | rfl | rfl <;> assumption
      · intro c hc; simp at hc; rcases hc with rfl | rfl <;> assumption
      · intro c hc; simp at hc; rcases hc with rfl | rfl <;> assumption
      · simp only [Prod.mk.injEq] at h'; exact h'.1
      · simp only [Prod.mk.injEq] at h'; exact h'.2.1
      · simp only [Prod.mk.injEq] at h'; exact h'.2.2
    · cases h
  · cases h

theorem isoMatch_val_ranges {s : String} {y m d : Int} (h : isoMatch s = some (y, m, d)) :
    0 ≤ y ∧ y ≤ 9999 ∧ 0 ≤ m ∧ m ≤ 99 ∧ 0 ≤ d ∧ d ≤ 99 := by
  obtain ⟨y3, y2, y1, y0, mo1, mo0, d1, d0, _, hYd, hMd, hDd, hYv, hMv, hDv⟩ :=
    isoMatch_char h
  have hy := digitsVal_bounds hYd
  have hm := digitsVal_bounds hMd
  have hd := digitsVal_bounds hDd
  simp only [List.length_cons, List.length_nil] at hy hm hd
  rw [hYv] at hy
  rw [hMv] at hm
  rw [hDv] at hd
  norm_num at hy hm hd
  omega

theorem buildIso_isoMatch {s : String} {y m d : Int} (h : isoMatch s = some (y, m, d)) :
    buildIsoDateString d m y = s := by
  obtain ⟨y3, y2, y1, y0, mo1, mo0, d1, d0, hdata, hYd, hMd, hDd, hYv, hMv, hDv⟩ :=
    isoMatch_char h
  obtain ⟨hy0, hy, hm0, hm, hd0, hd⟩ := isoMatch_val_ranges h
  have hyc : intToChars y = natDigitChars y.toNat := by rw [intToChars, if_neg (by omega)]
  have hmc : intToChars m = natDigitChars m.toNat := by rw [intToChars, if_neg (by omega)]
  have hdc : intToChars d = natDigitChars d.toNat := by rw [intToChars, if_neg (by omega)]
  have hylen : (padChars (natDigitChars y.toNat) 4).length = 4 :=
    padChars_length (natDigitChars_len_le (by omega : y.toNat < 10 ^ 4) (by norm_num))
  have hmlen : (padChars (natDigitChars m.toNat) 2).length = 2 :=
    padChars_length (natDigitChars_len_le (by omega : m.toNat < 10 ^ 2) (by norm_num))
  have hdlen : (padChars (natDigitChars d.toNat) 2).length = 2 :=
    padChars_length (natDigitChars_len_le (by omega : d.toNat < 10 ^ 2) (by norm_num))
  have hYeq : padChars (natDigitChars y.toNat) 4 = [y3, y2, y1, y0] := by
    apply digitsValFrom_inj _ _ 0 (padChars_digits (natDigitChars_digits _)) hYd
      (by rw [hylen]; rfl) (le_refl 0)
    show digitsVal _ = digitsVal _
    rw [digitsVal_padChars, natDigitChars_val, Int.toNat_of_nonneg hy0, hYv]
  have hMeq : padChars (natDigitChars m.toNat) 2 = [mo1, mo0] := by
    apply digitsValFrom_inj _ _ 0 (padChars_digits (natDigitChars_digits _)) hMd
      (by rw [hmlen]; rfl) (le_refl 0)
    show digitsVal _ = digitsVal _
    rw [digitsVal_padChars, natDigitChars_val, Int.toNat_of_nonneg hm0, hMv]
  have hDeq : padChars (natDigitChars d.toNat) 2 = [d1, d0] := by
    apply digitsValFrom_inj _ _ 0 (padChars_digits (natDigitChars_digits _)) hDd
      (by rw [hdlen]; rfl) (le_refl 0)
    show digitsVal _ = digitsVal _
    rw [digitsVal_padChars, natDigitChars_val, Int.toNat_of_nonneg hd0, hDv]
  rw [buildIsoDateString, hyc, hmc, hdc, hYeq, hMeq, hDeq]
  cases s with
  | mk data =>
    simp only at hdata
    rw [hdata]
    rfl

/-! ### Truncating versus flooring month-delta decomposition -/

theorem tdiv_twelve_eq (a : Int) : a.tdiv 12 = if 0 ≤ a then a / 12 else -((-a) / 12) := by
  split
  · rename_i h
    exact Int.tdiv_eq_ediv h (by norm_num)
  · rename_i h
    have hn : (0 : Int) ≤ -a := by omega
    have := Int.tdiv_eq_ediv hn (show (0:Int) ≤ 12 by norm_num)
    rw [Int.neg_tdiv] at this
    omega

theorem fdiv_twelve_eq (a : Int) : a.fdiv 12 = a / 12 :=
  Int.fdiv_eq_ediv a (by norm_num)

theorem tdiv_twelve_facts (a : Int) :
    a.tdiv 12 * 12 + (a - a.tdiv 12 * 12) = a ∧
      -11 ≤ a - a.tdiv 12 * 12 ∧ a - a.tdiv 12 * 12 ≤ 11 ∧
      (0 ≤ a → 0 ≤ a - a.tdiv 12 * 12) ∧ (a ≤ 0 → a - a.tdiv 12 * 12 ≤ 0) := by
  rw [tdiv_twelve_eq]
  split <;> omega

theorem normalizeMonth_fix {y m : Int} (h1 : 1 ≤ m) (h2 : m ≤ 12) :
    normalizeMonth y m = (y, m) := by
  rw [normalizeMonth]
  rw [if_neg (by omega), if_neg (by omega)]

theorem normalizeMonth_up {y m : Int} (h : m > 12) :
    normalizeMonth y m = normalizeMonth (y + 1) (m - 12) := by
  rw [normalizeMonth]
  rw [if_neg (by omega), if_pos h]

theorem normalizeMonth_down {y m : Int} (h : m < 1) :
    normalizeMonth y m = normalizeMonth (y - 1) (m + 12) := by
  rw [normalizeMonth]
  rw [if_pos h]

/-- The source's truncating decomposition plus single conditional rollover
computes the same normalized (year, month) pair as the spec's flooring
decomposition plus while-loop normalization. -/
theorem codeMonthYM_eq_specMonthYM (y m mo : Int) (h1 : 1 ≤ m) (h2 : m ≤ 12) :
    codeMonthYM y m mo = specMonthYM y m mo := by
  rw [codeMonthYM, specMonthYM, checkMonthRollover]
  have hf := fdiv_twelve_eq mo
  have ht := tdiv_twelve_eq mo
  by_cases hpos : 0 ≤ mo
  · rw [if_pos hpos] at ht
    rw [hf, ht]
    have hr : 0 ≤ mo - mo / 12 * 12 ∧ mo - mo / 12 * 12 ≤ 11 := by omega
    split
    · omega
    split
    · rename_i hno hyes
      rw [normalizeMonth_up hyes, normalizeMonth_fix (by omega) (by omega)]
    · rename_i hno hno2
      rw [normalizeMonth_fix (by omega) (by omega)]
  · rw [if_neg hpos] at ht
    rw [hf, ht]
    have hq : mo / 12 = -((-mo) / 12) - (if 12 ∣ mo then 0 else 1) := by
      rcases em (12 ∣ mo) with hd | hd
      · rw [if_pos hd]; omega
      · rw [if_neg hd]; omega
    rcases em (12 ∣ mo) with hd | hd
    · rw [if_pos hd] at hq
      have hsame : -((-mo) / 12) = mo / 12 := by omega
      rw [hsame]
      have hr : mo - mo / 12 * 12 = 0 := by omega
      rw [hr]
      split
      · omega
      split
      · omega
      · rw [normalizeMonth_fix (by omega) (by omega)]
    · rw [if_neg hd] at hq
      have hr1 : -11 ≤ mo - -((-mo) / 12) * 12 ∧ mo - -((-mo) / 12) * 12 ≤ -1 := by omega
      split
      · rename_i hlow
        rw [normalizeMonth_fix (by omega) (by omega)]
        simp only [Prod.mk.injEq]
        omega
      split
      · omega
      · rename_i hno hno2
        rw [normalizeMonth_up (by omega), normalizeMonth_fix (by omega) (by omega)]
        simp only [Prod.mk.injEq]
        omega

/-! ### The rata-die ordinal -/

theorem tmod_zero_iff_dvd (y k : Int) (hk : k ≠ 0) : y.tmod k = 0 ↔ k ∣ y := by
  rw [Int.tmod_def]
  constructor
  · intro h
    exact ⟨y.tdiv k, by omega⟩
  · rintro ⟨c, rfl⟩
    rw [Int.mul_tdiv_cancel_left c hk]
    ring

theorem isLeapYear_true_iff {y : Int} :
    isLeapYear y = true ↔ (4 ∣ y ∧ (¬(100 ∣ y) ∨ 400 ∣ y)) := by
  rw [isLeapYear]
  simp only [Bool.and_eq_true, Bool.or_eq_true, beq_iff_eq, bne_iff_ne, ne_eq]
  rw [tmod_zero_iff_dvd y 4 (by norm_num), tmod_zero_iff_dvd y 100 (by norm_num),
    tmod_zero_iff_dvd y 400 (by norm_num)]

theorem daysBeforeYear_succ (y : Int) :
    daysBeforeYear (y + 1) = daysBeforeYear y + 365 + (if isLeapYear y then 1 else 0) := by
  cases hL : isLeapYear y
  · have hnl : ¬(4 ∣ y ∧ (¬(100 ∣ y) ∨ 400 ∣ y)) := by
      rw [← isLeapYear_true_iff]; simp [hL]
    rw [if_neg (by simp)]
    unfold daysBeforeYear
    rcases em (4 ∣ y) with h4 | h4 <;> rcases em (100 ∣ y) with h100 | h100 <;>
      rcases em (400 ∣ y) with h400 | h400 <;> omega
  · have hl : 4 ∣ y ∧ (¬(100 ∣ y) ∨ 400 ∣ y) := isLeapYear_true_iff.mp hL
    rw [if_pos (by simp)]
    unfold daysBeforeYear
    rcases em (100 ∣ y) with h100 | h100 <;> rcases em (400 ∣ y) with h400 | h400 <;> omega

theorem daysBeforeMonth_succ (m y : Int) (h1 : 1 ≤ m) (h2 : m ≤ 11) :
    daysBeforeMonth (m + 1) (isLeapYear y) =
      daysBeforeMonth m (isLeapYear y) + maxDayU m y := by
  interval_cases m <;> cases hL : isLeapYear y <;>
    simp [daysBeforeMonth, maxDayU, monthTable, hL]

theorem daysBeforeMonth_d_bounds {m d : Int} (y : Int) (h1 : 1 ≤ m) (h2 : m ≤ 12)
    (hd1 : 1 ≤ d) (hd2 : d ≤ maxDayU m y) :
    1 ≤ daysBeforeMonth m (isLeapYear y) + d ∧
      daysBeforeMonth m (isLeapYear y) + d ≤ 365 + (if isLeapYear y then 1 else 0) := by
  interval_cases m <;> cases hL : isLeapYear y <;>
    simp [daysBeforeMonth, maxDayU, monthTable, hL] at hd2 ⊢ <;> omega

theorem daysBeforeMonth_step (k : Int) (ℓ : Bool) (h1 : 1 ≤ k) (h2 : k ≤ 11) :
    daysBeforeMonth k ℓ ≤ daysBeforeMonth (k + 1) ℓ := by
  interval_cases k <;> cases ℓ <;> simp [daysBeforeMonth] <;> omega

theorem daysBeforeMonth_mono {a b : Int} (ℓ : Bool) (h1 : 1 ≤ a) (hab : a ≤ b)
    (h2 : b ≤ 12) : daysBeforeMonth a ℓ ≤ daysBeforeMonth b ℓ := by
  have key : ∀ n : Nat, ∀ a : Int, 1 ≤ a → a + n ≤ 12 →
      daysBeforeMonth a ℓ ≤ daysBeforeMonth (a + n) ℓ := by
    intro n
    induction n with
    | zero => intro a _ _; simp
    | succ j ih =>
      intro a ha hab2
      have step := daysBeforeMonth_step (a + j) ℓ (by omega) (by omega)
      have rec := ih a ha (by omega)
      have : a + (j + 1 : Nat) = (a + j) + 1 := by push_cast; ring
      rw [this]
      omega
  have hb : b = a + ((b - a).toNat : Nat) := by omega
  rw [hb]
  exact key _ a h1 (by omega)

theorem daysBeforeYear_add_nat (y : Int) :
    ∀ n : Nat, daysBeforeYear y + 365 * n ≤ daysBeforeYear (y + n) := by
  intro n
  induction n with
  | zero => simp
  | succ j ih =>
    have step := daysBeforeYear_succ (y + j)
    have : y + (j + 1 : Nat) = (y + j) + 1 := by push_cast; ring
    rw [this, step]
    split <;> push_cast <;> omega

theorem daysBeforeYear_mono {a b : Int} (h : a ≤ b) :
    daysBeforeYear a ≤ daysBeforeYear b := by
  have hb : b = a + ((b - a).toNat : Nat) := by omega
  rw [hb]
  have := daysBeforeYear_add_nat a (b - a).toNat
  omega

theorem rd_borrow_step (y m x : Int) (h1 : 1 ≤ m) (h2 : m ≤ 12) :
    rd (checkMonthRollover y (m - 1)).1 (checkMonthRollover y (m - 1)).2
      (x + maxDayU (checkMonthRollover y (m - 1)).2 (checkMonthRollover y (m - 1)).1) =
      rd y m x := by
  by_cases hm : 2 ≤ m
  · have hro : checkMonthRollover y (m - 1) = (y, m - 1) := by
      rw [checkMonthRollover, if_neg (by omega), if_neg (by omega)]
    rw [hro]
    have := daysBeforeMonth_succ (m - 1) y (by omega) (by omega)
    simp only [rd]
    have hmm : m - 1 + 1 = m := by omega
    rw [hmm] at this
    omega
  · have hm1 : m = 1 := by omega
    subst hm1
    have hro : checkMonthRollover y (1 - 1) = (y - 1, 12) := by
      rw [checkMonthRollover, if_pos (by omega)]
      norm_num
    rw [hro]
    have hsucc := daysBeforeYear_succ (y - 1)
    have hyy : y - 1 + 1 = y := by omega
    rw [hyy] at hsucc
    simp only [rd]
    have h31 : maxDayU 12 (y - 1) = 31 := by
      cases hL : isLeapYear (y - 1) <;> simp [maxDayU, monthTable, hL]
    rw [h31]
    cases hL : isLeapYear (y - 1) <;>
      simp [hL, daysBeforeMonth] at hsucc ⊢ <;> omega

theorem rd_carry_step (y m x : Int) (h1 : 1 ≤ m) (h2 : m ≤ 12) :
    rd (checkMonthRollover y (m + 1)).1 (checkMonthRollover y (m + 1)).2
      (x - maxDayU m y) = rd y m x := by
  by_cases hm : m ≤ 11
  · have hro : checkMonthRollover y (m + 1) = (y, m + 1) := by
      rw [checkMonthRollover, if_neg (by omega), if_neg (by omega)]
    rw [hro]
    have := daysBeforeMonth_succ m y (by omega) (by omega)
    simp only [rd]
    omega
  · have hm12 : m = 12 := by omega
    subst hm12
    have hro : checkMonthRollover y (12 + 1) = (y + 1, 1) := by
      rw [checkMonthRollover, if_neg (by omega), if_pos (by omega)]
      norm_num
    rw [hro]
    have hsucc := daysBeforeYear_succ y
    simp only [rd]
    have h31 : maxDayU 12 y = 31 := by
      cases hL : isLeapYear y <;> simp [maxDayU, monthTable, hL]
    rw [h31]
    cases hL : isLeapYear y <;>
      simp [hL, daysBeforeMonth] at hsucc ⊢ <;> omega

theorem rd_lt_of_year_lt {y1 m1 d1 y2 m2 d2 : Int} (hy : y1 < y2)
    (hm1a : 1 ≤ m1) (hm1b : m1 ≤ 12) (hd1a : 1 ≤ d1) (hd1b : d1 ≤ maxDayU m1 y1)
    (hm2a : 1 ≤ m2) (hm2b : m2 ≤ 12) (hd2a : 1 ≤ d2) (hd2b : d2 ≤ maxDayU m2 y2) :
    rd y1 m1 d1 < rd y2 m2 d2 := by
  have hb1 := daysBeforeMonth_d_bounds y1 hm1a hm1b hd1a hd1b
  have hb2 := daysBeforeMonth_d_bounds y2 hm2a hm2b hd2a hd2b
  have hsucc := daysBeforeYear_succ y1
  have hmono := daysBeforeYear_mono (show y1 + 1 ≤ y2 by omega)
  simp only [rd]
  cases hL1 : isLeapYear y1 <;> cases hL2 : isLeapYear y2 <;>
    simp [hL1, hL2] at hsucc hb1 hb2 <;> omega

theorem rd_inj {y1 m1 d1 y2 m2 d2 : Int}
    (hm1a : 1 ≤ m1) (hm1b : m1 ≤ 12) (hd1a : 1 ≤ d1) (hd1b : d1 ≤ maxDayU m1 y1)
    (hm2a : 1 ≤ m2) (hm2b : m2 ≤ 12) (hd2a : 1 ≤ d2) (hd2b : d2 ≤ maxDayU m2 y2)
    (h : rd y1 m1 d1 = rd y2 m2 d2) : y1 = y2 ∧ m1 = m2 ∧ d1 = d2 := by
  have hy : y1 = y2 := by
    rcases lt_trichotomy y1 y2 with hlt | heq | hgt
    · have := rd_lt_of_year_lt hlt hm1a hm1b hd1a hd1b hm2a hm2b hd2a hd2b
      omega
    · exact heq
    · have := rd_lt_of_year_lt hgt hm2a hm2b hd2a hd2b hm1a hm1b hd1a hd1b
      omega
  subst hy
  have hmth : m1 = m2 := by
    rcases lt_trichotomy m1 m2 with hlt | heq | hgt
    · exfalso
      have hstep := daysBeforeMonth_succ m1 y1 (by omega) (by omega)
      have hmono := daysBeforeMonth_mono (isLeapYear y1)
        (show 1 ≤ m1 + 1 by omega) (show m1 + 1 ≤ m2 by omega) (by omega)
      simp only [rd] at h
      omega
    · exact heq
    · exfalso
      have hstep := daysBeforeMonth_succ m2 y1 (by omega) (by omega)
      have hmono := daysBeforeMonth_mono (isLeapYear y1)
        (show 1 ≤ m2 + 1 by omega) (show m2 + 1 ≤ m1 by omega) (by omega)
      simp only [rd] at h
      omega
  subst hmth
  simp only [rd] at h
  omega

/-! ### Correctness of the day-walk loops -/

theorem borrowDays_ok_spec (year month day : Int) :
    ∀ y' m' d', borrowDays year month day = .ok (y', m', d') →
      1 ≤ month → month ≤ 12 →
      rd y' m' d' = rd year month day ∧ 1 ≤ m' ∧ m' ≤ 12 ∧ 1 ≤ d' := by
  induction year, month, day using borrowDays.induct with
  | case1 year month day hd e heq =>
    intro y' m' d' hok _ _
    rw [borrowDays_err hd heq] at hok
    cases hok
  | case2 year month day hd mx heq ih =>
    intro y' m' d' hok hm1 hm2
    rw [borrowDays_go hd heq] at hok
    have hrange : 1 ≤ (checkMonthRollover year (month - 1)).2 ∧
        (checkMonthRollover year (month - 1)).2 ≤ 12 :=
      checkMonthRollover_range year (month - 1) (by omega) (by omega)
    have hspec := ih y' m' d' hok hrange.1 hrange.2
    have hmx : mx = maxDayU (checkMonthRollover year (month - 1)).2
        (checkMonthRollover year (month - 1)).1 :=
      (getMaxDayInMonth_ok_iff.mp heq).2.2.2.2
    have hstep := rd_borrow_step year month day hm1 hm2
    rw [← hmx] at hstep
    refine ⟨?_, hspec.2.1, hspec.2.2.1, hspec.2.2.2⟩
    rw [hspec.1, hstep]
  | case3 year month day hd =>
    intro y' m' d' hok hm1 hm2
    rw [borrowDays_done (by omega)] at hok
    injection hok with h1
    simp only [Prod.mk.injEq] at h1
    obtain ⟨e1, e2, e3⟩ := h1
    subst e1; subst e2; subst e3
    exact ⟨rfl, hm1, hm2, by omega⟩

theorem borrowDays_err_spec (year month day : Int) :
    ∀ e, borrowDays year month day = .error e →
      1 ≤ month → month ≤ 12 → ∃ yy, e = JsError.invalidYear yy := by
  induction year, month, day using borrowDays.induct with
  | case1 year month day hd e heq =>
    intro e' herr hm1 hm2
    rw [borrowDays_err hd heq] at herr
    injection herr with h1
    subst h1
    have hrange : 1 ≤ (checkMonthRollover year (month - 1)).2 ∧
        (checkMonthRollover year (month - 1)).2 ≤ 12 :=
      checkMonthRollover_range year (month - 1) (by omega) (by omega)
    have := getMaxDayInMonth_err_char heq hrange.1 hrange.2
    exact ⟨_, this.1⟩
  | case2 year month day hd mx heq ih =>
    intro e' herr hm1 hm2
    rw [borrowDays_go hd heq] at herr
    have hrange : 1 ≤ (checkMonthRollover year (month - 1)).2 ∧
        (checkMonthRollover year (month - 1)).2 ≤ 12 :=
      checkMonthRollover_range year (month - 1) (by omega) (by omega)
    exact ih e' herr hrange.1 hrange.2
  | case3 year month day hd =>
    intro e' herr _ _
    rw [borrowDays_done (by omega)] at herr
    cases herr

theorem carryDays_ok_spec (year month day : Int) :
    ∀ y' m' d', carryDays year month day = .ok (y', m', d') →
      1 ≤ month → month ≤ 12 → 1 ≤ day →
      rd y' m' d' = rd year month day ∧ 1 ≤ m' ∧ m' ≤ 12 ∧ 1 ≤ d' ∧
        d' ≤ maxDayU m' y' ∧ 1 ≤ y' ∧ y' ≤ 9999 := by
  induction year, month, day using carryDays.induct with
  | case1 year month day e heq =>
    intro y' m' d' hok _ _ _
    rw [carryDays_err heq] at hok
    cases hok
  | case2 year month day mx heq hle =>
    intro y' m' d' hok hm1 hm2 hd1
    rw [carryDays_done heq hle] at hok
    injection hok with h1
    simp only [Prod.mk.injEq] at h1
    obtain ⟨e1, e2, e3⟩ := h1
    subst e1; subst e2; subst e3
    obtain ⟨q1, q2, q3, q4, q5⟩ := getMaxDayInMonth_ok_iff.mp heq
    exact ⟨rfl, hm1, hm2, hd1, by omega, q3, q4⟩
  | case3 year month day mx heq hgt ih =>
    intro y' m' d' hok hm1 hm2 hd1
    rw [carryDays_go heq (by omega)] at hok
    have hrange : 1 ≤ (checkMonthRollover year (month + 1)).2 ∧
        (checkMonthRollover year (month + 1)).2 ≤ 12 :=
      checkMonthRollover_range year (month + 1) (by omega) (by omega)
    obtain ⟨q1, q2, q3, q4, q5⟩ := getMaxDayInMonth_ok_iff.mp heq
    have hbnd := maxDayU_bounds month year hm1 hm2
    have hspec := ih y' m' d' hok hrange.1 hrange.2 (by omega)
    have hstep := rd_carry_step year month day hm1 hm2
    refine ⟨?_, hspec.2.1, hspec.2.2.1, hspec.2.2.2.1, hspec.2.2.2.2.1,
      hspec.2.2.2.2.2.1, hspec.2.2.2.2.2.2⟩
    rw [hspec.1, ← q5] at *
    rw [q5] at hstep
    rw [← q5] at hstep
    exact hstep

theorem carryDays_err_spec (year month day : Int) :
    ∀ e, carryDays year month day = .error e →
      1 ≤ month → month ≤ 12 → ∃ yy, e = JsError.invalidYear yy := by
  induction year, month, day using carryDays.induct with
  | case1 year month day e heq =>
    intro e' herr hm1 hm2
    rw [carryDays_err heq] at herr
    injection herr with h1
    subst h1
    have := getMaxDayInMonth_err_char heq hm1 hm2
    exact ⟨_, this.1⟩
  | case2 year month day mx heq hle =>
    intro e' herr _ _
    rw [carryDays_done heq hle] at herr
    cases herr
  | case3 year month day mx heq hgt ih =>
    intro e' herr hm1 hm2
    rw [carryDays_go heq (by omega)] at herr
    have hrange : 1 ≤ (checkMonthRollover year (month + 1)).2 ∧
        (checkMonthRollover year (month + 1)).2 ≤ 12 :=
      checkMonthRollover_range year (month + 1) (by omega) (by omega)
    exact ih e' herr hrange.1 hrange.2

/-! ### Per-step characterizations of `addDate` -/

theorem rd_add_day (y m d k : Int) : rd y m (d + k) = rd y m d + k := by
  simp only [rd]
  ring

theorem codeMonthYM_month_range (y m mo : Int) (hm1 : 1 ≤ m) (hm2 : m ≤ 12) :
    1 ≤ (codeMonthYM y m mo).2 ∧ (codeMonthYM y m mo).2 ≤ 12 := by
  have hfacts := tdiv_twelve_facts mo
  exact checkMonthRollover_range _ _ (by omega) (by omega)

theorem yearsStep_ok_some {q : ℚ} {y y1 : Int} (h : yearsStep (some q) y = .ok y1) :
    isSafeInteger q = true ∧ y1 = y + q.num := by
  simp only [yearsStep] at h
  split at h
  · injection h with h1; exact ⟨by assumption, h1.symm⟩
  · cases h

theorem yearsStep_err {q : Option ℚ} {y : Int} {e : JsError}
    (h : yearsStep q y = .error e) : e = .nonIntegerDelta "years" := by
  simp only [yearsStep] at h
  split at h
  · cases h
  split at h
  · cases h
  · injection h with h1; exact h1.symm

theorem monthsStep_ok_some {q : ℚ} {isLast : Bool} {y m d y' m' d' : Int}
    (h : monthsStep (some q) isLast y m d = .ok (y', m', d')) :
    isSafeInteger q = true ∧ (y', m') = codeMonthYM y m q.num ∧
      1 ≤ m' ∧ m' ≤ 12 ∧ 1 ≤ y' ∧ y' ≤ 9999 ∧
      d' = (if isLast then maxDayU m' y' else min d (maxDayU m' y')) := by
  simp only [monthsStep] at h
  split at h
  · rename_i hsafe
    split at h
    · cases h
    · rename_i mx heq
      injection h with h1
      simp only [Prod.mk.injEq] at h1
      obtain ⟨e1, e2, e3⟩ := h1
      obtain ⟨q1, q2, q3, q4, q5⟩ := getMaxDayInMonth_ok_iff.mp heq
      subst e1; subst e2
      refine ⟨hsafe, rfl, q1, q2, q3, q4, ?_⟩
      rw [← e3, q5]
  · cases h

theorem monthsStep_err_some {q : ℚ} {isLast : Bool} {y m d : Int} {e : JsError}
    (h : monthsStep (some q) isLast y m d = .error e) (hm1 : 1 ≤ m) (hm2 : m ≤ 12) :
    e = .nonIntegerDelta "months" ∨ ∃ yy, e = .invalidYear yy := by
  simp only [monthsStep] at h
  split at h
  · split at h
    · rename_i heq
      injection h with h1
      subst h1
      have hrange := codeMonthYM_month_range y m q.num hm1 hm2
      have := getMaxDayInMonth_err_char heq hrange.1 hrange.2
      exact Or.inr ⟨_, this.1⟩
    · cases h
  · injection h with h1
    exact Or.inl h1.symm

theorem daysStep_ok_some {q : ℚ} {y m d y' m' d' : Int}
    (h : daysStep (some q) y m d = .ok (y', m', d')) (hm1 : 1 ≤ m) (hm2 : m ≤ 12) :
    isSafeInteger q = true ∧ rd y' m' d' = rd y m d + q.num ∧
      1 ≤ m' ∧ m' ≤ 12 ∧ 1 ≤ d' ∧ d' ≤ maxDayU m' y' ∧ 1 ≤ y' ∧ y' ≤ 9999 := by
  simp only [daysStep] at h
  split at h
  · rename_i hsafe
    split at h
    · cases h
    · rename_i p heq
      have hb := borrowDays_ok_spec y m (d + q.num) p.1 p.2.1 p.2.2 (by rw [heq]) hm1 hm2
      have hc := carryDays_ok_spec p.1 p.2.1 p.2.2 y' m' d' h hb.2.1 hb.2.2.1 hb.2.2.2
      refine ⟨hsafe, ?_, hc.2.1, hc.2.2.1, hc.2.2.2.1, hc.2.2.2.2.1,
        hc.2.2.2.2.2.1, hc.2.2.2.2.2.2⟩
      rw [hc.1, hb.1, rd_add_day]
  · cases h

theorem daysStep_err_some {q : ℚ} {y m d : Int} {e : JsError}
    (h : daysStep (some q) y m d = .error e) (hm1 : 1 ≤ m) (hm2 : m ≤ 12) :
    e = .nonIntegerDelta "days" ∨ ∃ yy, e = .invalidYear yy := by
  simp only [daysStep] at h
  split at h
  · split at h
    · rename_i heq
      injection h with h1
      subst h1
      exact Or.inr (borrowDays_err_spec y m _ _ heq hm1 hm2)
    · rename_i p heq
      have hb := borrowDays_ok_spec y m _ p.1 p.2.1 p.2.2 (by rw [heq]) hm1 hm2
      exact Or.inr (carryDays_err_spec p.1 p.2.1 p.2.2 _ h hb.2.1 hb.2.2.1)
  · injection h with h1
    exact Or.inl h1.symm

/-! ### Characterizations of the validity predicates -/

theorem isValidDate_eq_ok (d m y : Int) :
    isValidDate d m y =
      .ok (decide (1 ≤ y ∧ y ≤ 9999 ∧ 1 ≤ m ∧ m ≤ 12 ∧ 1 ≤ d ∧ d ≤ maxDayU m y)) := by
  unfold isValidDate
  by_cases h1 : y < 1 ∨ y > 9999
  · rw [if_pos h1]
    congr 1
    symm
    rw [decide_eq_false_iff_not]
    omega
  rw [if_neg h1]
  by_cases h2 : m < 1 ∨ m > 12
  · rw [if_pos h2]
    congr 1
    symm
    rw [decide_eq_false_iff_not]
    omega
  rw [if_neg h2]
  have hbnd := maxDayU_bounds m y (by omega) (by omega)
  by_cases h3 : d < 1 ∨ d > 31
  · rw [if_pos h3]
    congr 1
    symm
    rw [decide_eq_false_iff_not]
    omega
  rw [if_neg h3]
  have hok : getMaxDayInMonth m y = .ok (maxDayU m y) :=
    getMaxDayInMonth_ok_iff.mpr ⟨by omega, by omega, by omega, by omega, rfl⟩
  rw [hok]
  dsimp only
  congr 1
  rw [decide_eq_decide]
  omega

theorem isValidIso_true_iff {s : String} :
    isValidIsoDateString (.str s) = .ok true ↔
      ∃ y m d, isoMatch s = some (y, m, d) ∧ 1 ≤ y ∧ y ≤ 9999 ∧ 1 ≤ m ∧ m ≤ 12 ∧
        1 ≤ d ∧ d ≤ maxDayU m y := by
  simp only [isValidIsoDateString]
  split
  · rename_i heq
    constructor
    · intro h; cases h
    · rintro ⟨y, m, d, hsome, _⟩
      rw [heq] at hsome
      cases hsome
  · rename_i y m d heq
    rw [isValidDate_eq_ok]
    constructor
    · intro h
      injection h with h1
      rw [decide_eq_true_eq] at h1
      exact ⟨y, m, d, heq, h1.1, h1.2.1, h1.2.2.1, h1.2.2.2.1, h1.2.2.2.2.1, h1.2.2.2.2.2⟩
    · rintro ⟨y', m', d', hsome, q1, q2, q3, q4, q5, q6⟩
      rw [heq] at hsome
      injection hsome with h1
      simp only [Prod.mk.injEq] at h1
      obtain ⟨e1, e2, e3⟩ := h1
      subst e1; subst e2; subst e3
      congr 1
      rw [decide_eq_true_eq]
      exact ⟨q1, q2, q3, q4, q5, q6⟩

/-! ### Decomposition and evaluation of `addDate` -/

theorem _toDMY_ok_iff {s : String} {y m d : Int} :
    _toDMY s = .ok ⟨y, m, d⟩ ↔ isoMatch s = some (y, m, d) := by
  unfold _toDMY
  split
  · rename_i y' m' d' heq
    constructor
    · intro h
      injection h with h1
      injection h1 with e1 e2 e3
      subst e1; subst e2; subst e3
      exact heq
    · intro h
      rw [heq] at h
      injection h with h1
      simp only [Prod.mk.injEq] at h1
      obtain ⟨e1, e2, e3⟩ := h1
      subst e1; subst e2; subst e3
      rfl
  · rename_i heq
    constructor
    · intro h; cases h
    · intro h; rw [heq] at h; cases h

theorem addDate_ok_decompose {s : String} {δ : DateDelta} {t : String}
    (h : addDate s δ = .ok t) :
    ∃ dmy mx y1 p2 p3,
      _toDMY s = .ok dmy ∧
      getMaxDayInMonth dmy.month dmy.year = .ok mx ∧
      yearsStep δ.years dmy.year = .ok y1 ∧
      monthsStep δ.months (dmy.day == mx) y1 dmy.month dmy.day = .ok p2 ∧
      daysStep δ.days p2.1 p2.2.1 p2.2.2 = .ok p3 ∧
      t = buildIsoDateString p3.2.2 p3.2.1 p3.1 := by
  unfold addDate at h
  split at h
  · cases h
  rename_i dmy heq1
  split at h
  · cases h
  rename_i mx heq2
  split at h
  · cases h
  rename_i y1 heq3
  split at h
  · cases h
  rename_i p2 heq4
  split at h
  · cases h
  rename_i p3 heq5
  injection h with h1
  exact ⟨dmy, mx, y1, p2, p3, heq1, heq2, heq3, heq4, heq5, h1.symm⟩

theorem addDate_eval {s : String} {δ : DateDelta} {dmy : DMY} {mx y1 : Int}
    {p2 p3 : Int × Int × Int}
    (h1 : _toDMY s = .ok dmy) (h2 : getMaxDayInMonth dmy.month dmy.year = .ok mx)
    (h3 : yearsStep δ.years dmy.year = .ok y1)
    (h4 : monthsStep δ.months (dmy.day == mx) y1 dmy.month dmy.day = .ok p2)
    (h5 : daysStep δ.days p2.1 p2.2.1 p2.2.2 = .ok p3) :
    addDate s δ = .ok (buildIsoDateString p3.2.2 p3.2.1 p3.1) := by
  unfold addDate
  rw [h1]
  dsimp only
  rw [h2]
  dsimp only
  rw [h3]
  dsimp only
  rw [h4]
  dsimp only
  rw [h5]

theorem addDate_eval_errdays {s : String} {δ : DateDelta} {dmy : DMY} {mx y1 : Int}
    {p2 : Int × Int × Int} {e : JsError}
    (h1 : _toDMY s = .ok dmy) (h2 : getMaxDayInMonth dmy.month dmy.year = .ok mx)
    (h3 : yearsStep δ.years dmy.year = .ok y1)
    (h4 : monthsStep δ.months (dmy.day == mx) y1 dmy.month dmy.day = .ok p2)
    (h5 : daysStep δ.days p2.1 p2.2.1 p2.2.2 = .error e) :
    addDate s δ = .error e := by
  unfold addDate
  rw [h1]
  dsimp only
  rw [h2]
  dsimp only
  rw [h3]
  dsimp only
  rw [h4]
  dsimp only
  rw [h5]

theorem daysStep_eval {q : ℚ} {y m d dsum : Int} {r : Int × Int × Int}
    {res : Except JsError (Int × Int × Int)}
    (hsafe : isSafeInteger q = true) (hsum : d + q.num = dsum)
    (hb : borrowDays y m dsum = .ok r) (hc : carryDays r.1 r.2.1 r.2.2 = res) :
    daysStep (some q) y m d = res := by
  simp only [daysStep]
  rw [if_pos hsafe, hsum, hb]
  exact hc

theorem carryDays_go_to {year month day mx y2 m2 d2 : Int}
    (h : getMaxDayInMonth month year = .ok mx) (h2 : mx < day)
    (hy : (checkMonthRollover year (month + 1)).1 = y2)
    (hm : (checkMonthRollover year (month + 1)).2 = m2) (hd : day - mx = d2) :
    carryDays year month day = carryDays y2 m2 d2 := by
  rw [carryDays_go h h2, hy, hm, hd]

theorem borrowDays_go_to {year month day mx y2 m2 d2 : Int} (hday : day < 1)
    (h : getMaxDayInMonth (checkMonthRollover year (month - 1)).2
      (checkMonthRollover year (month - 1)).1 = .ok mx)
    (hy : (checkMonthRollover year (month - 1)).1 = y2)
    (hm : (checkMonthRollover year (month - 1)).2 = m2) (hd : day + mx = d2) :
    borrowDays year month day = borrowDays y2 m2 d2 := by
  rw [borrowDays_go hday h, hy, hm, hd]

theorem monthsStep_none {isLast : Bool} {y m d : Int} :
    monthsStep none isLast y m d = .ok (y, m, d) := rfl

theorem daysStep_none {y m d : Int} :
    daysStep none y m d = .ok (y, m, d) := rfl

/-! ### The claims -/

/-- C6: codec round-trip.  Decomposing the encoding of any valid CalendarDate
triple returns the triple, and encoding the decomposition of any string that
matches the 10-character `YYYY-MM-DD` digit pattern returns the string. -/
theorem claim_C6_codec_roundtrip :
    (∀ y m d : Int, 1 ≤ y → y ≤ 9999 → 1 ≤ m → m ≤ 12 → 1 ≤ d → d ≤ maxDayU m y →
      _toDMY (buildIsoDateString d m y) = .ok ⟨y, m, d⟩) ∧
    (∀ (s : String) (y m d : Int), isoMatch s = some (y, m, d) →
      buildIsoDateString d m y = s) := by
  constructor
  · intro y m d hy1 hy2 hm1 hm2 hd1 hd2
    have hbnd := maxDayU_bounds m y (by omega) (by omega)
    exact toDMY_buildIso (by omega) (by omega) (by omega) (by omega) (by omega) (by omega)
  · intro s y m d h
    exact buildIso_isoMatch h

theorem claim_C6_witness :
    _toDMY (buildIsoDateString 14 2 2023) = .ok ⟨2023, 2, 14⟩ ∧
      buildIsoDateString 28 6 815 = "0815-06-28" :=
  ⟨claim_C6_codec_roundtrip.1 2023 2 14 (by decide) (by decide) (by decide) (by decide)
      (by decide) (by decide),
    claim_C6_codec_roundtrip.2 "0815-06-28" 815 6 28 (by decide)⟩

/-- C8: the validity predicates never throw.  `isValidDate` returns `ok` of
exactly the conjunction of the range checks (false for any rejection reason,
true otherwise), and `isValidIsoDateString` returns an `ok` boolean on every
input, including non-strings. -/
theorem claim_C8_validators_total :
    (∀ d m y : Int, isValidDate d m y =
      .ok (decide (1 ≤ y ∧ y ≤ 9999 ∧ 1 ≤ m ∧ m ≤ 12 ∧ 1 ≤ d ∧ d ≤ maxDayU m y))) ∧
    (∀ v : JsValue, ∃ b, isValidIsoDateString v = .ok b) := by
  constructor
  · intro d m y
    exact isValidDate_eq_ok d m y
  · intro v
    cases v with
    | nonString => exact ⟨false, rfl⟩
    | str s =>
      cases hmatch : isoMatch s with
      | none =>
        refine ⟨false, ?_⟩
        simp only [isValidIsoDateString]
        rw [hmatch]
      | some triple =>
        obtain ⟨y, m, d⟩ := triple
        refine ⟨decide (1 ≤ y ∧ y ≤ 9999 ∧ 1 ≤ m ∧ m ≤ 12 ∧ 1 ≤ d ∧ d ≤ maxDayU m y), ?_⟩
        simp only [isValidIsoDateString]
        rw [hmatch]
        exact isValidDate_eq_ok d m y

/-- C9: the local-time conversion reads the weekday accessor.  For every
`Date` with in-range fields, `fromLocalDate` encodes
`(getDay, getMonth + 1, getFullYear)` — the day field of the output is the
weekday — and on the consistent concrete date 2023-02-14 (a Tuesday) the
output day field is 02, different from the day-of-month 14. -/
theorem claim_C9_fromLocalDate_weekday :
    (∀ dd : JSDate, 1 ≤ dd.getFullYear → dd.getFullYear ≤ 9999 →
      0 ≤ dd.getMonth → dd.getMonth ≤ 11 → 0 ≤ dd.getDay → dd.getDay ≤ 6 →
      _toDMY (fromLocalDate dd) = .ok ⟨dd.getFullYear, dd.getMonth + 1, dd.getDay⟩) ∧
    (sampleDate.getDay = jsWeekday 2023 2 14 ∧ sampleDate.getDate = 14 ∧
      fromLocalDate sampleDate = "2023-02-02" ∧ sampleDate.getDay ≠ sampleDate.getDate) := by
  constructor
  · intro dd h1 h2 h3 h4 h5 h6
    exact toDMY_buildIso (by omega) (by omega) (by omega) (by omega) (by omega) (by omega)
  · refine ⟨by decide, by decide, by decide, by decide⟩

theorem claim_C9_witness :
    _toDMY (fromLocalDate sampleDate) = .ok ⟨2023, 2, 2⟩ :=
  claim_C9_fromLocalDate_weekday.1 sampleDate (by decide) (by decide) (by decide)
    (by decide) (by decide) (by decide)

/-- C10: the UTC conversion has the same weekday defect.  For every `Date`
with in-range UTC fields, `fromUTCDate` encodes
`(getUTCDay, getUTCMonth + 1, getUTCFullYear)`, and on 2023-02-14 the output
day field (the UTC weekday 2) differs from the UTC day-of-month 14. -/
theorem claim_C10_fromUTCDate_weekday :
    (∀ dd : JSDate, 1 ≤ dd.getUTCFullYear → dd.getUTCFullYear ≤ 9999 →
      0 ≤ dd.getUTCMonth → dd.getUTCMonth ≤ 11 → 0 ≤ dd.getUTCDay → dd.getUTCDay ≤ 6 →
      _toDMY (fromUTCDate dd) = .ok ⟨dd.getUTCFullYear, dd.getUTCMonth + 1, dd.getUTCDay⟩) ∧
    (sampleDate.getUTCDay = jsWeekday 2023 2 14 ∧ sampleDate.getUTCDate = 14 ∧
      fromUTCDate sampleDate = "2023-02-02" ∧ sampleDate.getUTCDay ≠ sampleDate.getUTCDate) := by
  constructor
  · intro dd h1 h2 h3 h4 h5 h6
    exact toDMY_buildIso (by omega) (by omega) (by omega) (by omega) (by omega) (by omega)
  · refine ⟨by decide, by decide, by decide, by decide⟩

theorem claim_C10_witness :
    _toDMY (fromUTCDate sampleDate) = .ok ⟨2023, 2, 2⟩ :=
  claim_C10_fromUTCDate_weekday.1 sampleDate (by decide) (by decide) (by decide)
    (by decide) (by decide) (by decide)

/-- C5: the month-step refinement.  The source's truncating decomposition of
the month delta (`Math.trunc(months/12)`) followed by one conditional
rollover computes, for every starting month in 1–12 and every integer month
delta, the same (year, month) pair as the spec's flooring decomposition
followed by while-loop normalization; in particular the month step of
`addDate` lands on the spec's normalized pair. -/
theorem claim_C5_trunc_floor_equiv :
    (∀ y m mo : Int, 1 ≤ m → m ≤ 12 → codeMonthYM y m mo = specMonthYM y m mo) ∧
    (∀ (q : ℚ) (isLast : Bool) (y m d y' m' d' : Int), 1 ≤ m → m ≤ 12 →
      monthsStep (some q) isLast y m d = .ok (y', m', d') →
      (y', m') = specMonthYM y m q.num) := by
  constructor
  · intro y m mo h1 h2
    exact codeMonthYM_eq_specMonthYM y m mo h1 h2
  · intro q isLast y m d y' m' d' h1 h2 h
    have hspec := monthsStep_ok_some h
    rw [hspec.2.1]
    exact codeMonthYM_eq_specMonthYM y m q.num h1 h2

theorem claim_C5_witness :
    codeMonthYM 2020 5 (-17) = specMonthYM 2020 5 (-17) ∧
      codeMonthYM 2020 5 (-17) = (2018, 12) :=
  ⟨claim_C5_trunc_floor_equiv.1 2020 5 (-17) (by decide) (by decide), by decide⟩

/-- C1 counterexample: a years-only delta applied to a leap-year February 29
produces the calendrically invalid string 2025-02-29, so the increment engine
does not always return a valid CalendarDate. -/
theorem claim_C1_counterexample :
    addDate "2024-02-29" ⟨none, none, some 1⟩ = .ok "2025-02-29" ∧
      isValidIsoDateString (.str "2025-02-29") = .ok false := by
  constructor
  · decide
  · decide

/-- C3 counterexample: the claimed result `2026-03-02` is wrong; the engine
returns `2026-04-15` for this shift (the README repeats the same incorrect
expected value, but no years-months-days application order produces it). -/
theorem claim_C3_counterexample :
    addDate "2023-02-14" ⟨some 1, some 2, some 3⟩ = .ok "2026-04-15" ∧
      "2026-04-15" ≠ "2026-03-02" := by
  constructor
  · have hb : borrowDays 2026 4 15 = .ok (2026, 4, 15) := borrowDays_done (by decide)
    have hc : carryDays 2026 4 15 = .ok (2026, 4, 15) :=
      carryDays_done (show getMaxDayInMonth 4 2026 = .ok 30 by decide) (by decide)
    have h5 : daysStep (some 1) 2026 4 14 = .ok (2026, 4, 15) :=
      daysStep_eval (by decide) (by decide) hb hc
    rw [addDate_eval (show _toDMY "2023-02-14" = .ok ⟨2023, 2, 14⟩ by decide)
      (show getMaxDayInMonth 2 2023 = .ok 28 by decide)
      (show yearsStep (some 3) 2023 = .ok 2026 by decide)
      (show monthsStep (some 2) ((14 : Int) == 28) 2026 2 14 = .ok (2026, 4, 14) by decide) h5]
    decide
  · decide

/-- C3 amended: the shift of 2023-02-14 by one day, two months and three
years returns 2026-04-15, and this equals applying the years, then months,
then days components in three sequential calls. -/
theorem claim_C3_amended :
    addDate "2023-02-14" ⟨some 1, some 2, some 3⟩ = .ok "2026-04-15" ∧
      addDate "2023-02-14" ⟨none, none, some 3⟩ = .ok "2026-02-14" ∧
      addDate "2026-02-14" ⟨none, some 2, none⟩ = .ok "2026-04-14" ∧
      addDate "2026-04-14" ⟨some 1, none, none⟩ = .ok "2026-04-15" := by
  refine ⟨?_, by decide, by decide, ?_⟩
  · have hb : borrowDays 2026 4 15 = .ok (2026, 4, 15) := borrowDays_done (by decide)
    have hc : carryDays 2026 4 15 = .ok (2026, 4, 15) :=
      carryDays_done (show getMaxDayInMonth 4 2026 = .ok 30 by decide) (by decide)
    have h5 : daysStep (some 1) 2026 4 14 = .ok (2026, 4, 15) :=
      daysStep_eval (by decide) (by decide) hb hc
    rw [addDate_eval (show _toDMY "2023-02-14" = .ok ⟨2023, 2, 14⟩ by decide)
      (show getMaxDayInMonth 2 2023 = .ok 28 by decide)
      (show yearsStep (some 3) 2023 = .ok 2026 by decide)
      (show monthsStep (some 2) ((14 : Int) == 28) 2026 2 14 = .ok (2026, 4, 14) by decide) h5]
    decide
  · have hb : borrowDays 2026 4 15 = .ok (2026, 4, 15) := borrowDays_done (by decide)
    have hc : carryDays 2026 4 15 = .ok (2026, 4, 15) :=
      carryDays_done (show getMaxDayInMonth 4 2026 = .ok 30 by decide) (by decide)
    have h5 : daysStep (some 1) 2026 4 14 = .ok (2026, 4, 15) :=
      daysStep_eval (by decide) (by decide) hb hc
    rw [addDate_eval (show _toDMY "2026-04-14" = .ok ⟨2026, 4, 14⟩ by decide)
      (show getMaxDayInMonth 4 2026 = .ok 30 by decide)
      (show yearsStep none 2026 = .ok 2026 by decide)
      (show monthsStep none ((14 : Int) == 30) 2026 4 14 = .ok (2026, 4, 14) by decide) h5]
    decide

theorem monthsStep_month_range {mo : Option ℚ} {isLast : Bool} {y m d : Int}
    {p2 : Int × Int × Int} (h : monthsStep mo isLast y m d = .ok p2)
    (hm1 : 1 ≤ m) (hm2 : m ≤ 12) : 1 ≤ p2.2.1 ∧ p2.2.1 ≤ 12 := by
  obtain ⟨p2a, p2b, p2c⟩ := p2
  cases mo with
  | none =>
    rw [monthsStep_none] at h
    injection h with h1
    simp only [Prod.mk.injEq] at h1
    obtain ⟨e1, e2, e3⟩ := h1
    subst e2
    exact ⟨hm1, hm2⟩
  | some q =>
    have := monthsStep_ok_some h
    exact ⟨this.2.2.1, this.2.2.2.1⟩

/-- C2 counterexample: a string matching the 10-character pattern whose month
field is 13 makes `addDate` raise the invalid-month condition (even with an
empty delta), because the engine eagerly looks up the month length of the
parsed fields. -/
theorem claim_C2_counterexample :
    addDate "2023-13-01" ⟨none, none, none⟩ = .error (.invalidMonth 13) := by
  decide

/-- C2 amended: `addDate` fails with `MalformedDateString` exactly on
pattern-failing inputs, and on inputs denoting valid calendar dates its only
possible failures are `NonIntegerDelta` or `InvalidYear` (the latter when a
delta carries a month-length lookup outside years 1–9999); `InvalidMonth` and
`InvalidYear` remain reachable for pattern-matching inputs whose fields are
out of range. -/
theorem claim_C2_amended :
    (∀ (s : String) (δ : DateDelta), isoMatch s = none →
      addDate s δ = .error (.invalidDate s)) ∧
    (∀ (s : String) (δ : DateDelta) (e : JsError),
      isValidIsoDateString (.str s) = .ok true → addDate s δ = .error e →
      (∃ f, e = JsError.nonIntegerDelta f) ∨ (∃ yy, e = JsError.invalidYear yy)) := by
  constructor
  · intro s δ hnone
    have hp : _toDMY s = .error (.invalidDate s) := by
      unfold _toDMY
      rw [hnone]
    unfold addDate
    rw [hp]
  · intro s δ e hvalid herr
    obtain ⟨y, m, d, hmatch, hy1, hy2, hm1, hm2, hd1, hd2⟩ := isValidIso_true_iff.mp hvalid
    have hp : _toDMY s = .ok ⟨y, m, d⟩ := _toDMY_ok_iff.mpr hmatch
    have hmax : getMaxDayInMonth m y = .ok (maxDayU m y) :=
      getMaxDayInMonth_ok_iff.mpr ⟨hm1, hm2, hy1, hy2, rfl⟩
    unfold addDate at herr
    split at herr
    · rename_i e2 heq
      rw [hp] at heq
      cases heq
    rename_i dmy heq1
    rw [hp] at heq1
    injection heq1 with heq1'
    subst heq1'
    split at herr
    · rename_i e2 heq
      rw [hmax] at heq
      cases heq
    rename_i mx heq2
    split at herr
    · rename_i e2 heq
      injection herr with herr'
      subst herr'
      exact Or.inl ⟨"years", yearsStep_err heq⟩
    rename_i y1 heq3
    split at herr
    · rename_i e2 heq
      injection herr with herr'
      subst herr'
      cases hdm : δ.months with
      | none =>
        rw [hdm, monthsStep_none] at heq
        cases heq
      | some qm =>
        rw [hdm] at heq
        rcases monthsStep_err_some heq hm1 hm2 with h1 | h1
        · exact Or.inl ⟨"months", h1⟩
        · exact Or.inr h1
    rename_i p2 heq4
    split at herr
    · rename_i e2 heq
      injection herr with herr'
      subst herr'
      have hrange := monthsStep_month_range heq4 hm1 hm2
      cases hdd : δ.days with
      | none =>
        rw [hdd, daysStep_none] at heq
        cases heq
      | some qd =>
        rw [hdd] at heq
        rcases daysStep_err_some heq hrange.1 hrange.2 with h1 | h1
        · exact Or.inl ⟨"days", h1⟩
        · exact Or.inr h1
    · cases herr

theorem claim_C2_witness :
    ((∃ f, JsError.invalidYear 10000 = JsError.nonIntegerDelta f) ∨
      (∃ yy, JsError.invalidYear 10000 = JsError.invalidYear yy)) ∧
      addDate "9999-12-31" ⟨some 1, none, none⟩ = .error (.invalidYear 10000) := by
  have hb : borrowDays 9999 12 32 = .ok (9999, 12, 32) := borrowDays_done (by decide)
  have hc1 : carryDays 9999 12 32 = carryDays 10000 1 1 :=
    carryDays_go_to (show getMaxDayInMonth 12 9999 = .ok 31 by decide) (by decide)
      (by decide) (by decide) (by decide)
  have hc2 : carryDays 10000 1 1 = .error (.invalidYear 10000) :=
    carryDays_err (by decide)
  have h5 : daysStep (some 1) 9999 12 31 = .error (.invalidYear 10000) :=
    daysStep_eval (by decide) (by decide) hb (hc1.trans hc2)
  have herr : addDate "9999-12-31" ⟨some 1, none, none⟩ = .error (.invalidYear 10000) :=
    addDate_eval_errdays (show _toDMY "9999-12-31" = .ok ⟨9999, 12, 31⟩ by decide)
      (show getMaxDayInMonth 12 9999 = .ok 31 by decide)
      (show yearsStep none 9999 = .ok 9999 by decide)
      (show monthsStep none ((31 : Int) == 31) 9999 12 31 = .ok (9999, 12, 31) by decide) h5
  exact ⟨claim_C2_amended.2 "9999-12-31" ⟨some 1, none, none⟩ (.invalidYear 10000)
    (by decide) herr, herr⟩

theorem yearsStep_none {y : Int} : yearsStep none y = .ok y := rfl

/-- C1 amended: the increment engine returns a valid CalendarDate whenever the
delta contains a months or a days field; a years-only delta can instead
produce February 29 of a non-leap year (see the counterexample). -/
theorem claim_C1_amended (s : String) (δ : DateDelta) (t : String)
    (hvalid : isValidIsoDateString (.str s) = .ok true)
    (hδ : δ.months.isSome = true ∨ δ.days.isSome = true)
    (h : addDate s δ = .ok t) :
    isValidIsoDateString (.str t) = .ok true := by
  obtain ⟨y, m, d, hmatch, hy1, hy2, hm1, hm2, hd1, hd2⟩ := isValidIso_true_iff.mp hvalid
  obtain ⟨dmy, mx, y1, p2, p3, heq1, heq2, heq3, heq4, heq5, ht⟩ := addDate_ok_decompose h
  have hp : _toDMY s = .ok ⟨y, m, d⟩ := _toDMY_ok_iff.mpr hmatch
  rw [hp] at heq1
  injection heq1 with heq1'
  subst heq1'
  obtain ⟨p2a, p2b, p2c⟩ := p2
  obtain ⟨p3a, p3b, p3c⟩ := p3
  dsimp only at heq2 heq3 heq4 heq5 ht
  have hfinal : 1 ≤ p3b ∧ p3b ≤ 12 ∧ 1 ≤ p3c ∧ p3c ≤ maxDayU p3b p3a ∧
      1 ≤ p3a ∧ p3a ≤ 9999 := by
    cases hdd : δ.days with
    | some qd =>
      rw [hdd] at heq5
      have hr2 := monthsStep_month_range heq4 hm1 hm2
      have hds := daysStep_ok_some heq5 hr2.1 hr2.2
      exact ⟨hds.2.2.1, hds.2.2.2.1, hds.2.2.2.2.1, hds.2.2.2.2.2.1,
        hds.2.2.2.2.2.2.1, hds.2.2.2.2.2.2.2⟩
    | none =>
      rw [hdd, daysStep_none] at heq5
      injection heq5 with h1
      simp only [Prod.mk.injEq] at h1
      obtain ⟨e1, e2, e3⟩ := h1
      subst e1; subst e2; subst e3
      cases hdm : δ.months with
      | none =>
        rw [hdd, hdm] at hδ
        simp at hδ
      | some qm =>
        rw [hdm] at heq4
        have hs := monthsStep_ok_some heq4
        have hbnd := maxDayU_bounds p2b p2a hs.2.2.1 hs.2.2.2.1
        have hform := hs.2.2.2.2.2.2
        refine ⟨hs.2.2.1, hs.2.2.2.1, ?_, ?_, hs.2.2.2.2.1, hs.2.2.2.2.2.1⟩ <;>
          cases hbe : (d == mx) <;> rw [hbe] at hform <;> simp at hform <;> omega
  have hparse : _toDMY t = .ok ⟨p3a, p3b, p3c⟩ := by
    rw [ht]
    have hbnd := maxDayU_bounds p3b p3a hfinal.1 hfinal.2.1
    exact toDMY_buildIso (by omega) (by omega) (by omega) (by omega) (by omega) (by omega)
  exact isValidIso_true_iff.mpr ⟨p3a, p3b, p3c, _toDMY_ok_iff.mp hparse,
    hfinal.2.2.2.2.1, hfinal.2.2.2.2.2, hfinal.1, hfinal.2.1, hfinal.2.2.1,
    hfinal.2.2.2.1⟩

theorem claim_C1_witness : isValidIsoDateString (.str "2023-03-14") = .ok true :=
  claim_C1_amended "2023-02-14" ⟨none, some 1, none⟩ "2023-03-14" (by decide)
    (Or.inl (by decide)) (by decide)

/-- C4: the month-step day rule.  For a months-only shift of a valid date,
the result's day is the landing month's maximum day when the starting day was
the last day of its month, and otherwise the starting day clamped to the
landing month's maximum; in particular January 31 plus one month is
February 28 in 2023. -/
theorem claim_C4_month_day_rule :
    (∀ (s : String) (q : ℚ) (t : String) (y m d y' m' d' : Int),
      isValidIsoDateString (.str s) = .ok true →
      _toDMY s = .ok ⟨y, m, d⟩ →
      addDate s ⟨none, some q, none⟩ = .ok t →
      _toDMY t = .ok ⟨y', m', d'⟩ →
      d' = if d = maxDayU m y then maxDayU m' y' else min d (maxDayU m' y')) ∧
    addDate "2023-01-31" ⟨none, some 1, none⟩ = .ok "2023-02-28" := by
  constructor
  · intro s q t y m d y' m' d' hvalid hp h hpt
    obtain ⟨y0, m0, d0, hmatch0, hy1, hy2, hm1, hm2, hd1, hd2⟩ :=
      isValidIso_true_iff.mp hvalid
    have hmatch : isoMatch s = some (y, m, d) := _toDMY_ok_iff.mp hp
    rw [hmatch] at hmatch0
    injection hmatch0 with hmatch'
    simp only [Prod.mk.injEq] at hmatch'
    obtain ⟨e1, e2, e3⟩ := hmatch'
    subst e1; subst e2; subst e3
    obtain ⟨dmy, mx, y1, p2, p3, heq1, heq2, heq3, heq4, heq5, ht⟩ :=
      addDate_ok_decompose h
    rw [hp] at heq1
    injection heq1 with heq1'
    subst heq1'
    obtain ⟨p2a, p2b, p2c⟩ := p2
    obtain ⟨p3a, p3b, p3c⟩ := p3
    dsimp only at heq2 heq3 heq4 heq5 ht
    have hmax : getMaxDayInMonth m y = .ok (maxDayU m y) :=
      getMaxDayInMonth_ok_iff.mpr ⟨hm1, hm2, hy1, hy2, rfl⟩
    rw [hmax] at heq2
    injection heq2 with heq2'
    subst heq2'
    rw [yearsStep_none] at heq3
    injection heq3 with heq3'
    subst heq3'
    rw [daysStep_none] at heq5
    injection heq5 with h1
    simp only [Prod.mk.injEq] at h1
    obtain ⟨e1, e2, e3⟩ := h1
    subst e1; subst e2; subst e3
    have hs := monthsStep_ok_some heq4
    have hbnd := maxDayU_bounds p2b p2a hs.2.2.1 hs.2.2.2.1
    have hform := hs.2.2.2.2.2.2
    have hparse : _toDMY t = .ok ⟨p2a, p2b, p2c⟩ := by
      rw [ht]
      have hc : 1 ≤ p2c ∧ p2c ≤ maxDayU p2b p2a := by
        cases hbe : (d == maxDayU m y) <;> rw [hbe] at hform <;> simp at hform <;> omega
      exact toDMY_buildIso (by omega) (by omega) (by omega) (by omega)
        (by omega) (by omega)
    rw [hparse] at hpt
    injection hpt with hpt'
    injection hpt' with f1 f2 f3
    subst f1; subst f2; subst f3
    by_cases hde : d = maxDayU m y
    · have hbe : (d == maxDayU m y) = true := by
        rw [beq_iff_eq]; exact hde
      rw [hbe] at hform
      simp at hform
      rw [if_pos hde, hform]
    · have hbe : (d == maxDayU m y) = false := by
        rw [beq_eq_false_iff_ne]; exact hde
      rw [hbe] at hform
      simp at hform
      rw [if_neg hde, hform]
  · decide

theorem claim_C4_witness :
    (28 : Int) = (if (31 : Int) = maxDayU 1 2023 then maxDayU 2 2023
      else min 31 (maxDayU 2 2023)) :=
  claim_C4_month_day_rule.1 "2023-01-31" 1 "2023-02-28" 2023 1 31 2023 2 28
    (by decide) (by decide) (by decide) (by decide)

/-- C7: add-then-subtract round trip.  For a valid date string and an integer
day delta, if shifting by the delta succeeds and shifting the result by the
negated delta also succeeds (both succeed exactly when every month-length
lookup stays within years 1–9999), the second result is the original
string. -/
theorem claim_C7_roundtrip (s : String) (n : Int) (t u : String)
    (h0 : isValidIsoDateString (.str s) = .ok true)
    (h1 : addDate s ⟨some ((n : Int) : ℚ), none, none⟩ = .ok t)
    (h2 : addDate t ⟨some (((-n : Int)) : ℚ), none, none⟩ = .ok u) :
    u = s := by
  obtain ⟨y, m, d, hmatch, hy1, hy2, hm1, hm2, hd1, hd2⟩ := isValidIso_true_iff.mp h0
  have hp : _toDMY s = .ok ⟨y, m, d⟩ := _toDMY_ok_iff.mpr hmatch
  obtain ⟨dmy, mx, y1, p2, p3, heq1, heq2, heq3, heq4, heq5, ht⟩ := addDate_ok_decompose h1
  rw [hp] at heq1
  injection heq1 with heq1'
  subst heq1'
  obtain ⟨p2a, p2b, p2c⟩ := p2
  obtain ⟨p3a, p3b, p3c⟩ := p3
  dsimp only at heq2 heq3 heq4 heq5 ht
  rw [yearsStep_none] at heq3
  injection heq3 with heq3'
  subst heq3'
  rw [monthsStep_none] at heq4
  injection heq4 with h4'
  simp only [Prod.mk.injEq] at h4'
  obtain ⟨e1, e2, e3⟩ := h4'
  subst e1; subst e2; subst e3
  have hfwd := daysStep_ok_some heq5 hm1 hm2
  rw [Rat.num_intCast] at hfwd
  obtain ⟨dmy2, mx2, y12, q2, q3, g1, g2, g3, g4, g5, hu⟩ := addDate_ok_decompose h2
  have hbnd3 := maxDayU_bounds p3b p3a hfwd.2.2.1 hfwd.2.2.2.1
  have hpt : _toDMY t = .ok ⟨p3a, p3b, p3c⟩ := by
    rw [ht]
    exact toDMY_buildIso (by omega) (by omega) (by omega) (by omega) (by omega) (by omega)
  rw [hpt] at g1
  injection g1 with g1'
  subst g1'
  obtain ⟨q2a, q2b, q2c⟩ := q2
  obtain ⟨q3a, q3b, q3c⟩ := q3
  dsimp only at g2 g3 g4 g5 hu
  rw [yearsStep_none] at g3
  injection g3 with g3'
  subst g3'
  rw [monthsStep_none] at g4
  injection g4 with g4'
  simp only [Prod.mk.injEq] at g4'
  obtain ⟨f1, f2, f3⟩ := g4'
  subst f1; subst f2; subst f3
  have hbwd := daysStep_ok_some g5 hfwd.2.2.1 hfwd.2.2.2.1
  rw [Rat.num_intCast] at hbwd
  have hrd : rd q3a q3b q3c = rd y m d := by
    have e1 := hbwd.2.1
    have e2 := hfwd.2.1
    have e3 := rd_add_day y m d n
    omega
  have hinj := rd_inj hbwd.2.2.1 hbwd.2.2.2.1 hbwd.2.2.2.2.1 hbwd.2.2.2.2.2.1
    hm1 hm2 hd1 hd2 hrd
  obtain ⟨ey, em, ed⟩ := hinj
  subst ey; subst em; subst ed
  rw [hu]
  exact buildIso_isoMatch hmatch

theorem claim_C7_witness :
    addDate "2023-02-14" ⟨some ((40 : Int) : ℚ), none, none⟩ = .ok "2023-03-26" ∧
      addDate "2023-03-26" ⟨some (((-40 : Int)) : ℚ), none, none⟩ = .ok "2023-02-14" ∧
      "2023-02-14" = "2023-02-14" := by
  have hfb : borrowDays 2023 2 54 = .ok (2023, 2, 54) := borrowDays_done (by decide)
  have hfc1 : carryDays 2023 2 54 = carryDays 2023 3 26 :=
    carryDays_go_to (show getMaxDayInMonth 2 2023 = .ok 28 by decide) (by decide)
      (by decide) (by decide) (by decide)
  have hfc2 : carryDays 2023 3 26 = .ok (2023, 3, 26) :=
    carryDays_done (show getMaxDayInMonth 3 2023 = .ok 31 by decide) (by decide)
  have hf5 : daysStep (some ((40 : Int) : ℚ)) 2023 2 14 = .ok (2023, 3, 26) :=
    daysStep_eval (by decide) (by decide) hfb (hfc1.trans hfc2)
  have hfwd : addDate "2023-02-14" ⟨some ((40 : Int) : ℚ), none, none⟩ = .ok "2023-03-26" := by
    rw [addDate_eval (show _toDMY "2023-02-14" = .ok ⟨2023, 2, 14⟩ by decide)
      (show getMaxDayInMonth 2 2023 = .ok 28 by decide)
      (show yearsStep none 2023 = .ok 2023 by decide)
      (show monthsStep none ((14 : Int) == 28) 2023 2 14 = .ok (2023, 2, 14) by decide) hf5]
    decide
  have hbb1 : borrowDays 2023 3 (-14) = borrowDays 2023 2 14 :=
    borrowDays_go_to (by decide)
      (show getMaxDayInMonth (checkMonthRollover 2023 (3 - 1)).2
        (checkMonthRollover 2023 (3 - 1)).1 = .ok 28 by decide)
      (by decide) (by decide) (by decide)
  have hbb2 : borrowDays 2023 2 14 = .ok (2023, 2, 14) := borrowDays_done (by decide)
  have hbc : carryDays 2023 2 14 = .ok (2023, 2, 14) :=
    carryDays_done (show getMaxDayInMonth 2 2023 = .ok 28 by decide) (by decide)
  have hb5 : daysStep (some (((-40 : Int)) : ℚ)) 2023 3 26 = .ok (2023, 2, 14) :=
    daysStep_eval (by decide) (by decide) (hbb1.trans hbb2) hbc
  have hbwd : addDate "2023-03-26" ⟨some (((-40 : Int)) : ℚ), none, none⟩ =
      .ok "2023-02-14" := by
    rw [addDate_eval (show _toDMY "2023-03-26" = .ok ⟨2023, 3, 26⟩ by decide)
      (show getMaxDayInMonth 3 2023 = .ok 31 by decide)
      (show yearsStep none 2023 = .ok 2023 by decide)
      (show monthsStep none ((26 : Int) == 31) 2023 3 26 = .ok (2023, 3, 26) by decide) hb5]
    decide
  exact ⟨hfwd, hbwd,
    claim_C7_roundtrip "2023-02-14" 40 "2023-03-26" "2023-02-14" (by decide) hfwd hbwd⟩
